import Mathlib

/-!
Verification of the architectural symbol builder
(`src/server/src/core/python_arch_builder.rs`) against its specification.

The Rust code is shallowly embedded: the mutable `Rc<RefCell<Symbol>>` graph
becomes an append-only store of symbols indexed by `Nat`, builder and session
state is threaded explicitly, and external collaborators (import resolver,
AST evaluator, file manager, hooks) are oracle functions carried in an `Env`
record.  Definitions marked `Modelled from the spec:` embed code of this
repository that is not part of the provided sources (symbol manager, import
resolver types, evaluation helpers); they follow the specification's wording.
-/

/-- Source span, mirroring `ruff_text_size::TextRange`. -/
structure TextRange where
  start : Nat := 0
  stop : Nat := 0
  deriving DecidableEq, Repr, Inhabited

/-- Symbol kind tag, mirroring `constants::SymType`. -/
inductive SymType where
  | ROOT | NAMESPACE | PACKAGE | FILE | COMPILED | CLASS | FUNCTION | VARIABLE
  deriving DecidableEq, Repr, Inhabited

/-- Build phase status, mirroring `constants::BuildStatus`. -/
inductive BuildStatus where
  | PENDING | IN_PROGRESS | DONE
  deriving DecidableEq, Repr, Inhabited

/-- Build phase, mirroring `constants::BuildSteps`. -/
inductive BuildSteps where
  | ARCH | ARCH_EVAL | ODOO | VALIDATION
  deriving DecidableEq, Repr, Inhabited

/-- Diagnostics are opaque payloads for this pass. -/
abbrev Diagnostic := String

/-- The fragment of the python expression grammar this pass inspects:
string literals (for `__all__` lists, docstrings), bare names (decorators),
list displays, and everything else. -/
inductive PExpr where
  | stringLiteral (value : String)
  | nameExpr (id : String)
  | listExpr (elts : List PExpr)
  | other

instance : Inhabited PExpr := ⟨.other⟩

/-- Whether an expression is a string literal (`Expr::StringLiteral` test). -/
def PExpr.isStringLit : PExpr → Bool
  | .stringLiteral _ => true
  | _ => false

/-- Statically-known value, mirroring `core::evaluation::EvaluationValue`. -/
inductive EvaluationValue where
  | ANY : EvaluationValue
  | CONSTANT : PExpr → EvaluationValue
  | DICT : EvaluationValue
  | LIST : List PExpr → EvaluationValue
  | TUPLE : List PExpr → EvaluationValue

instance : Inhabited EvaluationValue := ⟨.ANY⟩

/-- Modelled from the spec: an `Evaluation` pairs a weak source-symbol
reference with an optional statically-known value and the source range it
came from (spec section 3).  A `none` symbol models an absent or expired
weak reference. -/
structure Evaluation where
  symbol : Option Nat := none
  value : Option EvaluationValue := none
  range : Option TextRange := none

instance : Inhabited Evaluation := ⟨{}⟩

/-- Function parameter record, mirroring `function_symbol::Argument`. -/
structure Argument where
  symbol : Nat
  default_value : Option Evaluation := none
  is_args : Bool := false
  is_kwargs : Bool := false

/-- A symbol node.  The Rust code uses one struct per kind
(`VariableSymbol`, `FunctionSymbol`, `ClassSymbol`, ...); the embedding
flattens them into one record whose unused fields keep their defaults. -/
structure Symb where
  typ : SymType := .VARIABLE
  name : String := ""
  range : TextRange := {}
  parent : Option Nat := none
  children : List Nat := []
  is_import_variable : Bool := false
  is_parameter : Bool := false
  evaluations : List Evaluation := []
  is_static : Bool := false
  is_property : Bool := false
  doc_string : Option String := none
  args : List Argument := []
  arch_status : BuildStatus := .PENDING
  not_found_paths : List (BuildSteps × List String) := []
  is_external : Bool := false
  in_workspace : Bool := false
  paths : List String := []

instance : Inhabited Symb := ⟨{}⟩

/-- Builder plus session state threaded through the pass: the symbol store,
the walker's symbol stack (index 0 bottom, last element top, as in the Rust
`Vec`), the deferred `__all__` names, diagnostics, and the scheduler /
file-manager state the pass touches. -/
structure BState where
  syms : List Symb := []
  sym_stack : List Nat := []
  __all_symbols_to_add : List (String × TextRange) := []
  diagnostics : List Diagnostic := []
  not_found_symbols : List Nat := []
  rebuild_arch_eval : List Nat := []
  dependencies : List (Nat × Nat × BuildSteps × BuildSteps) := []
  arch_file_diags : List Diagnostic := []
  published : Bool := false
  arch_trace : List (Nat × BuildStatus) := []

instance : Inhabited BState := ⟨{}⟩

/-- Read a symbol from the store. -/
def getSym (st : BState) (i : Nat) : Symb := st.syms.getD i default

/-- Update a symbol in the store in place. -/
def updateSym (st : BState) (i : Nat) (f : Symb → Symb) : BState :=
  { st with syms := st.syms.set i (f (getSym st i)) }

/-- `self.sym_stack.last()` — top of the walker's stack. -/
def stackTop (st : BState) : Nat := st.sym_stack.getLastD 0

/-- `self.sym_stack[0]` — the file symbol the pass was started on. -/
def stackBottom (st : BState) : Nat := st.sym_stack.headD 0

/-- Modelled from the spec: `add_new_variable(name, range)` of the symbol
manager (not among the provided sources) appends a fresh Variable to the
container's children and hands back its reference (spec section 4.2).
`is_external` is inherited from the owning container. -/
def add_new_variable (st : BState) (parent : Nat) (name : String)
    (range : TextRange) : BState × Nat :=
  let id := st.syms.length
  let v : Symb := { typ := .VARIABLE, name := name, range := range,
                    parent := some parent,
                    is_external := (getSym st parent).is_external }
  let st := { st with syms := st.syms ++ [v] }
  (updateSym st parent (fun p => { p with children := p.children ++ [id] }), id)

/-- Modelled from the spec: `add_new_function`, analogous to
`add_new_variable` but creating a Function child (spec sections 4.2, 4.6). -/
def add_new_function (st : BState) (parent : Nat) (name : String)
    (range : TextRange) : BState × Nat :=
  let id := st.syms.length
  let v : Symb := { typ := .FUNCTION, name := name, range := range,
                    parent := some parent,
                    is_external := (getSym st parent).is_external }
  let st := { st with syms := st.syms ++ [v] }
  (updateSym st parent (fun p => { p with children := p.children ++ [id] }), id)

/-- Modelled from the spec: `add_new_class`, analogous to
`add_new_variable` but creating a Class child (spec sections 4.2, 4.7). -/
def add_new_class (st : BState) (parent : Nat) (name : String)
    (range : TextRange) : BState × Nat :=
  let id := st.syms.length
  let v : Symb := { typ := .CLASS, name := name, range := range,
                    parent := some parent,
                    is_external := (getSym st parent).is_external }
  let st := { st with syms := st.syms ++ [v] }
  (updateSym st parent (fun p => { p with children := p.children ++ [id] }), id)

/-- Modelled from the spec: `get_content_symbol(name, u32::MAX)` — a lookup
at position infinity aggregates the bindings of `name` across all sections of
the container, in insertion order (spec section 3). -/
def get_content_symbol (st : BState) (c : Nat) (name : String) : List Nat :=
  (getSym st c).children.filter (fun i => (getSym st i).name = name)

/-- Modelled from the spec: `iter_symbols()` iterates the container's
name-to-binding-set map, yielding each top-level name once together with its
non-empty list of bindings (spec sections 3, 4.4 step 4). -/
def iter_symbols (st : BState) (c : Nat) : List (String × List Nat) :=
  (((getSym st c).children.map (fun i => (getSym st i).name)).dedup).map
    (fun n => (n, get_content_symbol st c n))

/-- `set_build_status(BuildSteps::ARCH, status)`.  The embedding additionally
appends the transition to a ghost trace so temporal claims can be stated. -/
def set_build_status (st : BState) (i : Nat) (status : BuildStatus) : BState :=
  let st := updateSym st i (fun s => { s with arch_status := status })
  { st with arch_trace := st.arch_trace ++ [(i, status)] }

/-- Import alias, mirroring `ruff_python_ast::Alias`. -/
structure Alias where
  name : String
  asname : Option String := none
  range : TextRange := {}

/-- Result of the external import resolver, mirroring
`import_resolver::ImportResult`. -/
structure ImportResult where
  found : Bool
  symbol : Nat
  file_tree : List String × List String
  range : TextRange

/-- File-manager answer: an optional parsed syntax tree.  The statements are
filled in once `Stmt` is defined, so the ast is kept abstract here via a
type parameter. -/
structure FileInfoOf (α : Type) where
  ast : Option α

/-- `extract_all_symbol_eval_values`, inner loop over list/tuple elements:
each string-literal element contributes its value, any other element latches
the parse-error flag without aborting. -/
def extract_elems : List PExpr → List String × Bool
  | [] => ([], false)
  | .stringLiteral s :: rest =>
      let r := extract_elems rest
      (s :: r.1, r.2)
  | _ :: rest =>
      let r := extract_elems rest
      (r.1, true)

/-- `PythonArchBuilder::extract_all_symbol_eval_values` (lines 217-266):
turns an optional evaluation value into `(names, parse_error)`. -/
def extract_all_symbol_eval_values : Option EvaluationValue → List String × Bool
  | none => ([], true)
  | some .ANY => ([], true)
  | some (.CONSTANT (.stringLiteral s)) => ([s], false)
  | some (.CONSTANT _) => ([], true)
  | some .DICT => ([], true)
  | some (.LIST l) => extract_elems l
  | some (.TUPLE t) => extract_elems t

/-- The string value of a string-literal element, used to state extractor
properties. -/
def stringLitVal : PExpr → Option String
  | .stringLiteral s => some s
  | _ => none

/-- Assignment / loop target expression: single names, tuple targets and
starred targets (the shapes `python_utils::unpack_assign` handles). -/
inductive Target where
  | name (id : String) (range : TextRange)
  | tuple (elts : List Target) (range : TextRange)
  | starred (t : Target) (range : TextRange)

mutual
/-- Modelled from the spec: the target-unpacking helper
(`python_utils::unpack_assign`, not among the provided sources) flattens a
target expression into its (name, range) leaves (spec section 4.5). -/
def unpack_target : Target → List (String × TextRange)
  | .name id r => [(id, r)]
  | .tuple elts _ => unpack_target_list elts
  | .starred t _ => unpack_target t

/-- Flattening of a list of targets, leftmost first. -/
def unpack_target_list : List Target → List (String × TextRange)
  | [] => []
  | t :: ts => unpack_target t ++ unpack_target_list ts
end

/-- One flattened assignment produced by `unpack_assign`. -/
structure UnpackedAssign where
  target_id : String
  target_range : TextRange
  value : Option PExpr

/-- Modelled from the spec: `python_utils::unpack_assign` yields a flat
sequence of (target-name, target-range, optional-value) tuples; the
ann is accepted and discarded by the callers in this pass
(spec section 4.5). -/
def unpack_assign (targets : List Target) (_ann : Option PExpr)
    (value : Option PExpr) : List UnpackedAssign :=
  (unpack_target_list targets).map (fun p => ⟨p.1, p.2, value⟩)

/-- A declared parameter name with its range (`ruff` `Parameter` /
`ParameterWithDefault`; the default expression is not read by this pass). -/
structure Parameter where
  name : String
  range : TextRange
  default : Option PExpr := none

/-- The parameter table of a function definition (`ruff` `Parameters`). -/
structure Parameters where
  posonlyargs : List Parameter := []
  args : List Parameter := []
  vararg : Option Parameter := none
  kwonlyargs : List Parameter := []
  kwarg : Option Parameter := none

/-- Modelled from the spec: `Evaluation::from_sections` copies the target
bindings by weak reference — one evaluation per binding, value and range
left absent (spec section 4.4 step 4). -/
def Evaluation.from_sections (loc_syms : List Nat) : List Evaluation :=
  loc_syms.map (fun s => { symbol := some s })

mutual
/-- The statement fragment the walker dispatches on (`ruff` `Stmt`); bodies
are the mutually defined `StmtList` so the walker recurses structurally. -/
inductive Stmt where
  | importStmt (names : List Alias) (range : TextRange)
  | importFrom (module : Option String) (names : List Alias) (level : Nat)
      (range : TextRange)
  | annAssign (target : Target) (ann : PExpr) (value : Option PExpr)
      (range : TextRange)
  | assign (targets : List Target) (value : PExpr) (range : TextRange)
  | functionDef (name : String) (decorator_list : List PExpr)
      (parameters : Parameters) (body : StmtList) (range : TextRange)
  | classDef (name : String) (body : StmtList) (range : TextRange)
  | ifStmt (body : StmtList) (elif_else_clauses : StmtLists)
  | tryStmt (body : StmtList) (handlers : StmtLists) (orelse : StmtList)
      (finalbody : StmtList)
  | forStmt (target : Target) (iter : PExpr) (body : StmtList)
      (orelse : StmtList)
  | exprStmt (value : PExpr)
  | otherStmt

/-- A sequence of statements (a suite). -/
inductive StmtList where
  | nil
  | cons (s : Stmt) (rest : StmtList)

/-- A sequence of suites (elif/else clause bodies, except-handler bodies). -/
inductive StmtLists where
  | nil
  | cons (l : StmtList) (rest : StmtLists)
end

/-- External collaborators of the pass, as pure oracles.  Modelled from the
spec: the import resolver, AST evaluator, file manager, workspace query and
package path resolution live outside this component (spec section 6);
`file_of` stands for `Symbol::get_file` on an evaluation's target. -/
structure Env where
  resolve_import_stmt : Option String → List Alias → Option Nat → TextRange →
    ImportResult
  eval_from_ast : PExpr → Nat → Nat → List Evaluation × List Diagnostic
  file_of : Nat → Option Nat
  is_in_workspace : String → Bool
  update_file_info : String → FileInfoOf StmtList
  init_path : String → String

/-- Wildcard `__all__` filter computation (lines 100-133): look up the target
module's `__all__` binding at position infinity; when it has exactly one
evaluation carrying a value, run the exports extractor and restrict the
names (a parse error only logs a warning); any other shape logs a warning
and keeps every name allowed.  `Symbol::follow_ref` (not among the provided
sources) is modelled from the spec as yielding the looked-up symbol itself,
unexpired. -/
def wildcard_filter (st : BState) (m : Nat) : Bool × List String :=
  match (get_content_symbol st m "__all__").head? with
  | some all =>
    if (getSym st all).evaluations.length = 1 then
      match ((getSym st all).evaluations.headD default).value with
      | some v =>
        let nf := extract_all_symbol_eval_values (some v)
        (false, nf.1)
      | none => (true, [])
    else (true, [])
  | none => (true, [])

/-- Wildcard binding loop (lines 134-144): for each name of the target
module allowed by the filter, create a local variable at the top of the
stack carrying the wildcard range, `is_import_variable = true` and weak
copies of the target bindings; also returns the created symbols
(`dep_to_add`). -/
def wildcard_bind (st : BState) (range : TextRange) (allowed : Bool)
    (name_filter : List String) :
    List (String × List Nat) → BState × List Nat
  | [] => (st, [])
  | p :: rest =>
    if allowed || name_filter.contains p.1 then
      let added := add_new_variable st (stackTop st) p.1 range
      let st2 := updateSym added.1 added.2 (fun s =>
        { s with is_import_variable := true,
                 evaluations := Evaluation.from_sections p.2 })
      let r := wildcard_bind st2 range allowed name_filter rest
      (r.1, added.2 :: r.2)
    else wildcard_bind st range allowed name_filter rest

/-- Wildcard dependency loop (lines 146-158): for each created binding whose
first evaluation resolves (unexpired weak reference) to a symbol whose file
differs from the current one, add an (Arch, Arch) dependency edge for the
current file symbol.  A missing file (`get_file().unwrap()` in the source)
is modelled as adding no edge. -/
def wildcard_deps (env : Env) (st : BState) (ids : List Nat) : BState :=
  ids.foldl (fun st vid =>
    match ((getSym st vid).evaluations.headD default).symbol with
    | some tgt =>
      match env.file_of tgt with
      | some f =>
        if f ≠ stackBottom st then
          { st with dependencies := st.dependencies ++
              [(stackBottom st, f, BuildSteps.ARCH, BuildSteps.ARCH)] }
        else st
      | none => st
    | none => st) st

/-- Handling of one import alias inside
`create_local_symbols_from_import_stmt` (lines 82-169): a `*` alias at the
top level resolves the wildcard (recording a not-found path on failure and
binding filtered names on success); a non-`*` alias binds its visible name
(`as`-name, else first dotted segment) as an import variable. -/
def process_import_alias (env : Env) (from_stmt : Option String)
    (name_aliases : List Alias) (level : Option Nat) (range : TextRange)
    (st : BState) (import_name : Alias) : BState :=
  if import_name.name = "*" then
    if st.sym_stack.length ≠ 1 then st
    else
      let import_result := env.resolve_import_stmt from_stmt name_aliases level range
      if import_result.found = false then
        let st := { st with not_found_symbols :=
          st.not_found_symbols ++ [stackBottom st] }
        updateSym st (stackBottom st) (fun s =>
          { s with not_found_paths := s.not_found_paths ++
              [(BuildSteps.ARCH,
                import_result.file_tree.1 ++ import_result.file_tree.2)] })
      else
        let fl := wildcard_filter st import_result.symbol
        let bound := wildcard_bind st import_result.range fl.1 fl.2
          (iter_symbols st import_result.symbol)
        wildcard_deps env bound.1 bound.2
  else
    let var_name := match import_name.asname with
      | none => (import_name.name.splitOn ".").headD import_name.name
      | some a => a
    let added := add_new_variable st (stackTop st) var_name import_name.range
    updateSym added.1 added.2 (fun s => { s with is_import_variable := true })

/-- `PythonArchBuilder::create_local_symbols_from_import_stmt`
(lines 81-171): process each alias of an import statement in order. -/
def create_local_symbols_from_import_stmt (env : Env) (st : BState)
    (from_stmt : Option String) (name_aliases : List Alias)
    (level : Option Nat) (range : TextRange) : BState :=
  name_aliases.foldl (process_import_alias env from_stmt name_aliases level range) st

/-- Creation of one unpacked target as a variable of the container on top
of the stack (the loop bodies of `_visit_ann_assign` and the target part of
`visit_for`). -/
def bind_target (st : BState) (assign : UnpackedAssign) : BState :=
  (add_new_variable st (stackTop st) assign.target_id assign.target_range).1

/-- `PythonArchBuilder::_visit_ann_assign` (lines 268-276): unpack the
annotated target and create a variable for each leaf; this path has no
`__all__` special case. -/
def _visit_ann_assign (st : BState) (target : Target) (ann : PExpr)
    (value : Option PExpr) : BState :=
  let assigns := match value with
    | some v => unpack_assign [target] (some ann) (some v)
    | none => unpack_assign [target] (some ann) none
  assigns.foldl bind_target st

/-- `PythonArchBuilder::_visit_assign` (lines 278-315): create a variable per
unpacked target; when the variable is named `__all__`, has a value and a
parent, eagerly evaluate the value and, for an external container whose
first evaluation is a list, record its string literals (paired with the
evaluation's range, unwrapped in the source) for materialization after the
walk. -/
def assign_step (env : Env) (range : TextRange) (st : BState)
    (assign : UnpackedAssign) : BState :=
  let added := add_new_variable st (stackTop st) assign.target_id
    assign.target_range
  let st := added.1
  let vid := added.2
  if (getSym st vid).name = "__all__" then
    match assign.value, (getSym st vid).parent with
    | some v, some parent =>
      let eval := env.eval_from_ast v parent range.start
      let st := updateSym st vid (fun s => { s with evaluations := eval.1 })
      let st := { st with diagnostics := st.diagnostics ++ eval.2 }
      if (getSym st vid).evaluations.isEmpty then st
      else if (getSym st (stackTop st)).is_external then
        let evaluation := (getSym st vid).evaluations.headD default
        match evaluation.value with
        | some (.LIST list) =>
          { st with __all_symbols_to_add := st.__all_symbols_to_add ++
              list.filterMap (fun item => match item with
                | .stringLiteral s => some (s, evaluation.range.getD {})
                | _ => none) }
        | _ => st
      else st
    | _, _ => st
  else st

/-- `PythonArchBuilder::_visit_assign` (lines 278-315), continued: one
`assign_step` per unpacked target. -/
def _visit_assign (env : Env) (st : BState) (targets : List Target)
    (value : PExpr) (range : TextRange) : BState :=
  let assigns := unpack_assign targets none (some value)
  assigns.foldl (assign_step env range) st

/-- Materialization loop of `_resolve_all_symbols` (lines 376-380): for each
recorded (name, range), create a placeholder variable at the top of the
stack when the name has no binding at position infinity. -/
def resolve_fold (st : BState) : List (String × TextRange) → BState
  | [] => st
  | p :: rest =>
    if (get_content_symbol st (stackTop st) p.1).isEmpty then
      resolve_fold (add_new_variable st (stackTop st) p.1 p.2).1 rest
    else resolve_fold st rest

/-- `PythonArchBuilder::_resolve_all_symbols` (lines 375-381): drain the
recorded synthetic export names and materialize the missing ones. -/
def _resolve_all_symbols (st : BState) : BState :=
  resolve_fold { st with __all_symbols_to_add := [] } st.__all_symbols_to_add

/-- One decorator scan step of `visit_func_def` (lines 321-328): a bare
name `staticmethod` or `property` sets the corresponding flag. -/
def apply_decorator (fid : Nat) (st : BState) (dec : PExpr) : BState :=
  let st := match dec with
    | .nameExpr id =>
      if id = "staticmethod" then
        updateSym st fid (fun s => { s with is_static := true })
      else st
    | _ => st
  match dec with
    | .nameExpr id =>
      if id = "property" then
        updateSym st fid (fun s => { s with is_property := true })
      else st
    | _ => st

/-- One parameter materialization step of `visit_func_def` (lines 337-346):
create the parameter variable inside the function, flag it, and record it
in the function's argument list. -/
def add_param (fid : Nat) (st : BState) (arg : Parameter) : BState :=
  let padd := add_new_variable st fid arg.name arg.range
  let st := updateSym padd.1 padd.2 (fun s => { s with is_parameter := true })
  updateSym st fid (fun f => { f with args := f.args ++
    [{ symbol := padd.2, default_value := none,
       is_args := false, is_kwargs := false }] })

/-- The non-recursive prefix of `PythonArchBuilder::visit_func_def`
(lines 317-346): create a Function child of the top of the stack, scan
name-only decorators for `staticmethod` / `property`, capture a leading
string-literal docstring, materialize the positional-only and
positional-or-keyword parameters (recording them in the function's
argument list), and push the function onto the stack. -/
def visit_func_def_pre (st : BState) (name : String)
    (decorator_list : List PExpr) (parameters : Parameters)
    (body : StmtList) (range : TextRange) : BState :=
  let added := add_new_function st (stackTop st) name range
  let st := added.1
  let fid := added.2
  let st := decorator_list.foldl (apply_decorator fid) st
  let st := match body with
    | .cons (.exprStmt (.stringLiteral s)) _ =>
      updateSym st fid (fun f => { f with doc_string := some s })
    | _ => st
  let st := (parameters.posonlyargs ++ parameters.args).foldl (add_param fid) st
  { st with sym_stack := st.sym_stack ++ [fid] }

/-- The non-recursive prefix of `PythonArchBuilder::visit_class_def`
(lines 354-368): create a Class child of the top of the stack, capture a
leading string-literal docstring, and push the class onto the stack. -/
def visit_class_def_pre (st : BState) (name : String)
    (body : StmtList) (range : TextRange) : BState :=
  let added := add_new_class st (stackTop st) name range
  let st := added.1
  let cid := added.2
  let st := match body with
    | .cons (.exprStmt (.stringLiteral s)) _ =>
      updateSym st cid (fun c => { c with doc_string := some s })
    | _ => st
  { st with sym_stack := st.sym_stack ++ [cid] }

/-- The loop-target binding prefix of `PythonArchBuilder::visit_for`
(lines 392-396): bind the unpacked loop target names as variables of the
container on top of the stack. -/
def visit_for_pre (st : BState) (target : Target) : BState :=
  let unpacked := unpack_assign [target] none none
  unpacked.foldl bind_target st

mutual
/-- `PythonArchBuilder::visit_node` (lines 173-215): walk a statement
sequence, dispatching on each statement in order. -/
def visit_node (env : Env) (st : BState) : StmtList → BState
  | .nil => st
  | .cons stmt rest => visit_node env (visit_stmt env st stmt) rest

/-- The statement dispatch of `visit_node` (lines 175-212): Import,
ImportFrom, AnnAssign and Assign are handled only when the top of the stack
is not a Function; FunctionDef, ClassDef, If, Try and For always dispatch;
everything else is ignored.  The bodies of the source's recursive visitors
`visit_func_def` (lines 317-352), `visit_class_def` (lines 354-373),
`visit_if` (lines 383-390), `visit_for` (lines 392-401) and `visit_try`
(lines 403-408) are inlined here so the recursion is structural; the
definitions of the same names below restate them and agree definitionally. -/
def visit_stmt (env : Env) (st : BState) : Stmt → BState
  | .importStmt names range =>
    if (getSym st (stackTop st)).typ ≠ .FUNCTION then
      create_local_symbols_from_import_stmt env st none names none range
    else st
  | .importFrom module names level range =>
    if (getSym st (stackTop st)).typ ≠ .FUNCTION then
      create_local_symbols_from_import_stmt env st module names (some level) range
    else st
  | .annAssign target ann value _range =>
    if (getSym st (stackTop st)).typ ≠ .FUNCTION then
      _visit_ann_assign st target ann value
    else st
  | .assign targets value range =>
    if (getSym st (stackTop st)).typ ≠ .FUNCTION then
      _visit_assign env st targets value range
    else st
  | .functionDef name decorator_list parameters body range =>
    let st := visit_node env
      (visit_func_def_pre st name decorator_list parameters body range) body
    { st with sym_stack := st.sym_stack.dropLast }
  | .classDef name body range =>
    let st := visit_node env (visit_class_def_pre st name body range) body
    { st with sym_stack := st.sym_stack.dropLast }
  | .ifStmt body clauses => visit_clauses env (visit_node env st body) clauses
  | .tryStmt body _handlers orelse finalbody =>
    visit_node env (visit_node env (visit_node env st body) orelse) finalbody
  | .forStmt target _iter body orelse =>
    visit_node env (visit_node env (visit_for_pre st target) body) orelse
  | .exprStmt _ => st
  | .otherStmt => st

/-- The elif/else clause loop of `visit_if` (lines 386-388). -/
def visit_clauses (env : Env) (st : BState) : StmtLists → BState
  | .nil => st
  | .cons c rest => visit_clauses env (visit_node env st c) rest
end

/-- `PythonArchBuilder::visit_func_def` (lines 317-352): create the
function with decorators, docstring and parameters, push, walk the body,
pop.  Agrees definitionally with `visit_stmt` on a FunctionDef. -/
def visit_func_def (env : Env) (st : BState) (name : String)
    (decorator_list : List PExpr) (parameters : Parameters)
    (body : StmtList) (range : TextRange) : BState :=
  let st := visit_node env
    (visit_func_def_pre st name decorator_list parameters body range) body
  { st with sym_stack := st.sym_stack.dropLast }

/-- `PythonArchBuilder::visit_class_def` (lines 354-373): create the class
with its docstring, push, walk the body, pop; the `on_class_def` hook is
external and modelled as the identity.  Agrees definitionally with
`visit_stmt` on a ClassDef. -/
def visit_class_def (env : Env) (st : BState) (name : String)
    (body : StmtList) (range : TextRange) : BState :=
  let st := visit_node env (visit_class_def_pre st name body range) body
  { st with sym_stack := st.sym_stack.dropLast }

/-- `PythonArchBuilder::visit_if` (lines 383-390): walk the then-body and
every elif/else clause body. -/
def visit_if (env : Env) (st : BState) (body : StmtList)
    (clauses : StmtLists) : BState :=
  visit_clauses env (visit_node env st body) clauses

/-- `PythonArchBuilder::visit_for` (lines 392-401): bind the unpacked loop
target names as variables of the container on top of the stack, then walk
the body and the else-suite.  Note the dispatch to this visitor is not
gated on the top-of-stack kind. -/
def visit_for (env : Env) (st : BState) (target : Target)
    (body : StmtList) (orelse : StmtList) : BState :=
  visit_node env (visit_node env (visit_for_pre st target) body) orelse

/-- `PythonArchBuilder::visit_try` (lines 403-408): walk the try-body, the
else-suite and the finally-suite; except-handler bodies are not visited. -/
def visit_try (env : Env) (st : BState) (body : StmtList)
    (_handlers : StmtLists) (orelse : StmtList) (finalbody : StmtList) :
    BState :=
  visit_node env (visit_node env (visit_node env st body) orelse) finalbody

/-- `PythonArchBuilder::load_arch` (lines 44-79): short-circuit on
Namespace/Root/Compiled/Variable symbols; otherwise mark Arch in-progress,
resolve the path (Package init path via an oracle), persist `in_workspace`,
attach pending diagnostics to the file info, walk the syntax tree and
enqueue for arch-eval when present (publish diagnostics when absent), and
mark Arch done.  `none` models the `panic!` on a symbol without exactly one
path; the `on_done` hook is external and modelled as the identity. -/
def load_arch (env : Env) (st : BState) : Option BState :=
  let root := stackBottom st
  let symbol := getSym st root
  if [SymType.NAMESPACE, .ROOT, .COMPILED, .VARIABLE].contains symbol.typ then
    some st
  else
    let st := set_build_status st root .IN_PROGRESS
    if symbol.paths.length ≠ 1 then none
    else
      let path := symbol.paths.headD ""
      let path := if symbol.typ = .PACKAGE then env.init_path path else path
      let in_workspace :=
        (match symbol.parent with
         | some p => (getSym st p).in_workspace
         | none => false) || env.is_in_workspace path
      let st := updateSym st root (fun s => { s with in_workspace := in_workspace })
      let file_info := env.update_file_info path
      let st := { st with arch_file_diags := st.diagnostics }
      let st :=
        match file_info.ast with
        | some ast =>
          let st := visit_node env st ast
          let st := _resolve_all_symbols st
          { st with rebuild_arch_eval := st.rebuild_arch_eval ++ [root] }
        | none => { st with published := true }
      some (set_build_status st root .DONE)

/-! ### Store lemmas -/

theorem getSym_eq (st : BState) (i : Nat) :
    getSym st i = st.syms[i]?.getD default := by
  simp [getSym, List.getD_eq_getElem?_getD]

theorem length_updateSym (st : BState) (i : Nat) (f : Symb → Symb) :
    (updateSym st i f).syms.length = st.syms.length := by
  simp [updateSym]

theorem getSym_updateSym_self (st : BState) (i : Nat) (f : Symb → Symb)
    (h : i < st.syms.length) : getSym (updateSym st i f) i = f (getSym st i) := by
  simp [getSym_eq, updateSym, List.getElem?_set_self h]

theorem getSym_updateSym_ne (st : BState) (i j : Nat) (f : Symb → Symb)
    (h : i ≠ j) : getSym (updateSym st i f) j = getSym st j := by
  simp [getSym_eq, updateSym, List.getElem?_set_ne h]

/-- A symbol with one more child appended. -/
def withChild (s : Symb) (id : Nat) : Symb :=
  { s with children := s.children ++ [id] }

/-- The fresh record `add_new_variable` creates. -/
def freshVar (st : BState) (parent : Nat) (name : String)
    (range : TextRange) : Symb :=
  { typ := .VARIABLE, name := name, range := range, parent := some parent,
    is_external := (getSym st parent).is_external }

/-- The fresh record `add_new_function` creates. -/
def freshFun (st : BState) (parent : Nat) (name : String)
    (range : TextRange) : Symb :=
  { typ := .FUNCTION, name := name, range := range, parent := some parent,
    is_external := (getSym st parent).is_external }

/-- The fresh record `add_new_class` creates. -/
def freshCls (st : BState) (parent : Nat) (name : String)
    (range : TextRange) : Symb :=
  { typ := .CLASS, name := name, range := range, parent := some parent,
    is_external := (getSym st parent).is_external }

theorem add_new_variable_eq (st : BState) (p : Nat) (n : String)
    (rg : TextRange) (hp : p < st.syms.length) :
    add_new_variable st p n rg =
      ({ st with syms :=
          st.syms.set p (withChild (getSym st p) st.syms.length)
            ++ [freshVar st p n rg] }, st.syms.length) := by
  have hget : getSym { st with syms := st.syms ++ [freshVar st p n rg] } p
      = getSym st p := by
    simp [getSym_eq, List.getElem?_append, hp]
  simp only [add_new_variable, updateSym, freshVar, withChild] at *
  rw [hget]
  simp [List.set_append, hp]

theorem add_new_function_eq (st : BState) (p : Nat) (n : String)
    (rg : TextRange) (hp : p < st.syms.length) :
    add_new_function st p n rg =
      ({ st with syms :=
          st.syms.set p (withChild (getSym st p) st.syms.length)
            ++ [freshFun st p n rg] }, st.syms.length) := by
  have hget : getSym { st with syms := st.syms ++ [freshFun st p n rg] } p
      = getSym st p := by
    simp [getSym_eq, List.getElem?_append, hp]
  simp only [add_new_function, updateSym, freshFun, withChild] at *
  rw [hget]
  simp [List.set_append, hp]

theorem add_new_class_eq (st : BState) (p : Nat) (n : String)
    (rg : TextRange) (hp : p < st.syms.length) :
    add_new_class st p n rg =
      ({ st with syms :=
          st.syms.set p (withChild (getSym st p) st.syms.length)
            ++ [freshCls st p n rg] }, st.syms.length) := by
  have hget : getSym { st with syms := st.syms ++ [freshCls st p n rg] } p
      = getSym st p := by
    simp [getSym_eq, List.getElem?_append, hp]
  simp only [add_new_class, updateSym, freshCls, withChild] at *
  rw [hget]
  simp [List.set_append, hp]

/-! ### The walk invariant -/

/-- All fields of a symbol except its children and not-found paths. -/
def Symb.core (s : Symb) : Symb := { s with children := [], not_found_paths := [] }

theorem core_withChild (s : Symb) (id : Nat) : (withChild s id).core = s.core := rfl

/-- Relation between the state before and after a walker step: the stack is
restored, the store only grows, the status trace is untouched, every
pre-existing symbol keeps all fields except children and not-found paths,
and its children gain at most a suffix, which is empty unless the symbol is
the current top of the stack. -/
def StInv (st st' : BState) : Prop :=
  st'.sym_stack = st.sym_stack ∧
  st.syms.length ≤ st'.syms.length ∧
  st'.arch_trace = st.arch_trace ∧
  ∀ m, m < st.syms.length →
    (getSym st' m).core = (getSym st m).core ∧
    ∃ t, (getSym st' m).children = (getSym st m).children ++ t ∧
      (m ≠ stackTop st → t = [])

theorem StInv.refl (st : BState) : StInv st st :=
  ⟨rfl, le_rfl, rfl, fun _ _ => ⟨rfl, [], by simp, fun _ => rfl⟩⟩

theorem StInv.stack_eq {s1 s2 : BState} (h : StInv s1 s2) :
    s2.sym_stack = s1.sym_stack := h.1

theorem StInv.top_eq {s1 s2 : BState} (h : StInv s1 s2) :
    stackTop s2 = stackTop s1 := by
  rw [stackTop, stackTop, h.1]

theorem StInv.len_le {s1 s2 : BState} (h : StInv s1 s2) :
    s1.syms.length ≤ s2.syms.length := h.2.1

theorem StInv.trans {s1 s2 s3 : BState} (h12 : StInv s1 s2)
    (h23 : StInv s2 s3) : StInv s1 s3 := by
  obtain ⟨a1, b1, c1, d1⟩ := h12
  obtain ⟨a2, b2, c2, d2⟩ := h23
  refine ⟨a2.trans a1, le_trans b1 b2, c2.trans c1, fun m hm => ?_⟩
  obtain ⟨e1, t1, f1, g1⟩ := d1 m hm
  obtain ⟨e2, t2, f2, g2⟩ := d2 m (lt_of_lt_of_le hm b1)
  refine ⟨e2.trans e1, t1 ++ t2, by rw [f2, f1, List.append_assoc], fun hm2 => ?_⟩
  have htop : stackTop s2 = stackTop s1 := by rw [stackTop, stackTop, a1]
  rw [g1 hm2, g2 (by rw [htop]; exact hm2)]
  simp

/-- A state change that leaves the store, stack and trace alone satisfies
the invariant. -/
theorem stinv_same_syms {s1 s2 : BState} (hs : s2.syms = s1.syms)
    (hk : s2.sym_stack = s1.sym_stack) (ht : s2.arch_trace = s1.arch_trace) :
    StInv s1 s2 := by
  refine ⟨hk, by rw [hs], ht, fun m hm => ?_⟩
  rw [getSym_eq, getSym_eq, hs]
  exact ⟨rfl, [], by simp, fun _ => rfl⟩

theorem getSym_withSyms (st : BState) (l : List Symb) (m : Nat) :
    getSym { st with syms := l } m = l[m]?.getD default := by
  simp [getSym, List.getD_eq_getElem?_getD]

/-- Appending a fresh symbol and registering it as a child of the top of
the stack preserves the invariant. -/
theorem stinv_add_child_top (st : BState) (v : Symb)
    (h : stackTop st < st.syms.length) :
    StInv st { st with syms :=
      (st.syms.set (stackTop st) (withChild (getSym st (stackTop st)) st.syms.length)) ++ [v] } := by
  refine ⟨rfl, by simp, rfl, fun m hm => ?_⟩
  by_cases hm2 : m = stackTop st
  · subst hm2
    rw [getSym_withSyms, List.getElem?_append_left (by simp [hm]),
      List.getElem?_set_self (by simpa using hm)]
    exact ⟨core_withChild _ _, [st.syms.length], rfl, fun hc => absurd rfl hc⟩
  · rw [getSym_withSyms, List.getElem?_append_left (by simp [hm]),
      List.getElem?_set_ne (fun hx => hm2 hx.symm), ← getSym_eq]
    exact ⟨rfl, [], by simp, fun _ => rfl⟩

/-- Creating a variable under the top of the stack preserves the invariant. -/
theorem stinv_addvar_top (st : BState) (n : String) (rg : TextRange)
    (h : stackTop st < st.syms.length) :
    StInv st (add_new_variable st (stackTop st) n rg).1 := by
  rw [add_new_variable_eq st (stackTop st) n rg h]
  exact stinv_add_child_top st _ h

/-- Creating a function under the top of the stack preserves the invariant. -/
theorem stinv_addfun_top (st : BState) (n : String) (rg : TextRange)
    (h : stackTop st < st.syms.length) :
    StInv st (add_new_function st (stackTop st) n rg).1 := by
  rw [add_new_function_eq st (stackTop st) n rg h]
  exact stinv_add_child_top st _ h

/-- Creating a class under the top of the stack preserves the invariant. -/
theorem stinv_addcls_top (st : BState) (n : String) (rg : TextRange)
    (h : stackTop st < st.syms.length) :
    StInv st (add_new_class st (stackTop st) n rg).1 := by
  rw [add_new_class_eq st (stackTop st) n rg h]
  exact stinv_add_child_top st _ h

/-- Updating a symbol that did not exist in the base state preserves the
invariant relative to that base state. -/
theorem stinv_update_fresh {st st1 : BState} (h : StInv st st1) {id : Nat}
    (hid : st.syms.length ≤ id) (f : Symb → Symb) :
    StInv st (updateSym st1 id f) := by
  obtain ⟨a, b, c, d⟩ := h
  refine ⟨a, by simpa [updateSym] using b, c, fun m hm => ?_⟩
  have hne : id ≠ m := by omega
  rw [getSym_updateSym_ne st1 id m f hne]
  exact d m hm

/-- Appending to a symbol's not-found paths preserves the invariant. -/
theorem stinv_update_nfp {st st1 : BState} (h : StInv st st1) (b : Nat)
    (q : List (BuildSteps × List String)) :
    StInv st (updateSym st1 b (fun s =>
      { s with not_found_paths := s.not_found_paths ++ q })) := by
  obtain ⟨a, bl, c, d⟩ := h
  refine ⟨a, by simpa [updateSym] using bl, c, fun m hm => ?_⟩
  obtain ⟨e, t, ft, g⟩ := d m hm
  by_cases hb : b = m
  · subst hb
    by_cases hlt : b < st1.syms.length
    · rw [getSym_updateSym_self st1 b _ hlt]
      exact ⟨e, t, ft, g⟩
    · rw [updateSym, List.set_eq_of_length_le (by omega)]
      exact ⟨e, t, ft, g⟩
  · rw [getSym_updateSym_ne st1 b m _ hb]
    exact ⟨e, t, ft, g⟩

/-- Creating a variable under the top of the stack, starting from a state
invariant-related to the base, preserves the invariant. -/
theorem stinv_addvar_top_step {st st1 : BState} (h : StInv st st1)
    (hw : stackTop st < st.syms.length) (n : String) (rg : TextRange) :
    StInv st (add_new_variable st1 (stackTop st1) n rg).1 := by
  refine h.trans (stinv_addvar_top st1 n rg ?_)
  rw [h.top_eq]
  exact lt_of_lt_of_le hw h.len_le

/-- Creating a variable under a parent that did not exist in the base state
preserves the invariant relative to that base state. -/
theorem stinv_addvar_fresh {st st1 : BState} (h : StInv st st1) {p : Nat}
    (hp : st.syms.length ≤ p) (hp2 : p < st1.syms.length) (n : String)
    (rg : TextRange) : StInv st (add_new_variable st1 p n rg).1 := by
  rw [add_new_variable_eq st1 p n rg hp2]
  obtain ⟨a, b, c, d⟩ := h
  refine ⟨a, by simp; omega, c, fun m hm => ?_⟩
  have hne : p ≠ m := by omega
  rw [getSym_withSyms, List.getElem?_append_left
      (by simp; exact lt_of_lt_of_le hm b),
    @List.getElem?_set_ne _ _ p m hne _, ← getSym_eq]
  exact d m hm

/-- A fold creating variables under the running top of the stack preserves
the invariant. -/
theorem stinv_addvars_fold {st : BState} (hw : stackTop st < st.syms.length)
    (items : List UnpackedAssign) :
    ∀ {st1 : BState}, StInv st st1 →
      StInv st (items.foldl bind_target st1) := by
  induction items with
  | nil => intro st1 h; exact h
  | cons a rest ih =>
    intro st1 h
    rw [List.foldl_cons]
    exact ih (stinv_addvar_top_step h hw a.target_id a.target_range)

/-- The wildcard binding loop preserves the invariant. -/
theorem stinv_wildcard_bind (rg : TextRange) (allowed : Bool)
    (nf : List String) (entries : List (String × List Nat)) :
    ∀ {st st1 : BState}, StInv st st1 → stackTop st < st.syms.length →
      StInv st (wildcard_bind st1 rg allowed nf entries).1 := by
  induction entries with
  | nil => intro st st1 h _; exact h
  | cons p rest ih =>
    intro st st1 h hw
    rw [wildcard_bind]
    split
    · have h2 := stinv_addvar_top_step h hw p.1 rg
      have h3 := @stinv_update_fresh st
        (add_new_variable st1 (stackTop st1) p.1 rg).1 h2
        (add_new_variable st1 (stackTop st1) p.1 rg).2
        (le_trans h.len_le (by rw [add_new_variable]))
        (fun s => { s with is_import_variable := true,
                           evaluations := Evaluation.from_sections p.2 })
      exact ih h3 hw
    · exact ih h hw

/-- The wildcard dependency loop only touches the dependency edges. -/
theorem wildcard_deps_fields (env : Env) (ids : List Nat) :
    ∀ st : BState, (wildcard_deps env st ids).syms = st.syms ∧
      (wildcard_deps env st ids).sym_stack = st.sym_stack ∧
      (wildcard_deps env st ids).arch_trace = st.arch_trace := by
  induction ids with
  | nil => intro st; exact ⟨rfl, rfl, rfl⟩
  | cons v rest ih =>
    intro st
    rw [wildcard_deps] at *
    rw [List.foldl_cons]
    refine (ih _).imp (fun hx => hx.trans ?_) (fun hx => hx.imp
      (fun hy => hy.trans ?_) (fun hy => hy.trans ?_)) <;>
      (split <;> try rfl) <;> (split <;> try rfl) <;> (split <;> rfl)

/-- Processing one import alias preserves the invariant. -/
theorem stinv_process_alias (env : Env) (fs : Option String)
    (na : List Alias) (lv : Option Nat) (rg : TextRange) {st st1 : BState}
    (h : StInv st st1) (hw : stackTop st < st.syms.length) (a : Alias) :
    StInv st (process_import_alias env fs na lv rg st1 a) := by
  rw [process_import_alias]
  split
  · split
    · exact h
    · dsimp only
      split
      · exact stinv_update_nfp (h.trans (stinv_same_syms rfl rfl rfl)) _ _
      · have h2 := stinv_wildcard_bind (env.resolve_import_stmt fs na lv rg).range
          (wildcard_filter st1 (env.resolve_import_stmt fs na lv rg).symbol).1
          (wildcard_filter st1 (env.resolve_import_stmt fs na lv rg).symbol).2
          (iter_symbols st1 (env.resolve_import_stmt fs na lv rg).symbol) h hw
        have hf := wildcard_deps_fields env
          (wildcard_bind st1 (env.resolve_import_stmt fs na lv rg).range
            (wildcard_filter st1 (env.resolve_import_stmt fs na lv rg).symbol).1
            (wildcard_filter st1 (env.resolve_import_stmt fs na lv rg).symbol).2
            (iter_symbols st1 (env.resolve_import_stmt fs na lv rg).symbol)).2
          (wildcard_bind st1 (env.resolve_import_stmt fs na lv rg).range
            (wildcard_filter st1 (env.resolve_import_stmt fs na lv rg).symbol).1
            (wildcard_filter st1 (env.resolve_import_stmt fs na lv rg).symbol).2
            (iter_symbols st1 (env.resolve_import_stmt fs na lv rg).symbol)).1
        exact h2.trans (stinv_same_syms hf.1 hf.2.1 hf.2.2)
  · dsimp only
    refine stinv_update_fresh (stinv_addvar_top_step h hw _ a.range) ?_ _
    exact le_trans h.len_le (by rw [add_new_variable])

/-- The import binder preserves the invariant. -/
theorem stinv_create_local (env : Env) (fs : Option String)
    (lv : Option Nat) (rg : TextRange) (na : List Alias) :
    ∀ {st st1 : BState}, StInv st st1 → stackTop st < st.syms.length →
      ∀ aliases : List Alias,
        StInv st (aliases.foldl (process_import_alias env fs na lv rg) st1) := by
  intro st st1 h hw aliases
  induction aliases generalizing st1 with
  | nil => exact h
  | cons a rest ih =>
    rw [List.foldl_cons]
    exact ih (stinv_process_alias env fs na lv rg h hw a)

/-- Generic fold preservation of the invariant. -/
theorem stinv_foldl {α : Type} {st : BState} (f : BState → α → BState)
    (hstep : ∀ (s : BState) (a : α), StInv st s → StInv st (f s a)) :
    ∀ (l : List α) {s : BState}, StInv st s → StInv st (l.foldl f s) := by
  intro l
  induction l with
  | nil => intro s h; exact h
  | cons a rest ih => intro s h; rw [List.foldl_cons]; exact ih (hstep _ _ h)

/-- Generic fold preservation of the invariant together with strict store
growth. -/
theorem stinvS_foldl {α : Type} {st : BState} (f : BState → α → BState)
    (hstep : ∀ (s : BState) (a : α),
      StInv st s ∧ st.syms.length < s.syms.length →
      StInv st (f s a) ∧ st.syms.length < (f s a).syms.length) :
    ∀ (l : List α) {s : BState},
      StInv st s ∧ st.syms.length < s.syms.length →
      StInv st (l.foldl f s) ∧ st.syms.length < (l.foldl f s).syms.length := by
  intro l
  induction l with
  | nil => intro s h; exact h
  | cons a rest ih => intro s h; rw [List.foldl_cons]; exact ih (hstep _ _ h)

theorem len_addvar (s : BState) (p : Nat) (n : String) (rg : TextRange) :
    (add_new_variable s p n rg).1.syms.length = s.syms.length + 1 := by
  simp [add_new_variable, updateSym]

/-- Creating a variable under a parent absent from the base state preserves
the invariant, with no bound on the parent in the current state. -/
theorem stinv_addvar_fresh2 {st st1 : BState} (h : StInv st st1) {p : Nat}
    (hp : st.syms.length ≤ p) (n : String) (rg : TextRange) :
    StInv st (add_new_variable st1 p n rg).1 := by
  obtain ⟨a, b, c, d⟩ := h
  unfold add_new_variable updateSym
  dsimp only
  refine ⟨a, by (try simp); omega, c, fun m hm => ?_⟩
  have hne : p ≠ m := by omega
  rw [getSym_withSyms, @List.getElem?_set_ne _ _ p m hne _,
    List.getElem?_append_left (by (try simp); omega), ← getSym_eq]
  exact d m hm


/-- One step of the `_visit_assign` fold preserves the invariant. -/
theorem stinv_assign_step (env : Env) (rg : TextRange) {st st1 : BState}
    (h : StInv st st1) (hw : stackTop st < st.syms.length)
    (assign : UnpackedAssign) :
    StInv st (assign_step env rg st1 assign) := by
  rw [assign_step]
  dsimp only
  have h1 := stinv_addvar_top_step h hw assign.target_id assign.target_range
  have hid : st.syms.length ≤ (add_new_variable st1 (stackTop st1)
      assign.target_id assign.target_range).2 :=
    le_trans h.len_le (by rw [add_new_variable])
  split
  · split
    · rename_i o1 o2 v2 parent2 hv2 hp2
      have h2 := stinv_update_fresh h1 hid
        (fun s => { s with evaluations := (env.eval_from_ast v2 parent2 rg.start).1 })
      have h3 : StInv st _ := h2.trans (stinv_same_syms rfl rfl rfl)
      split
      · exact h3
      · split
        · split
          · exact h3.trans (stinv_same_syms rfl rfl rfl)
          · exact h3
        · exact h3
    · exact h1
  · exact h1

/-- `_visit_assign` preserves the invariant. -/
theorem stinv_visit_assign (env : Env) (targets : List Target) (v : PExpr)
    (rg : TextRange) {st : BState} (hw : stackTop st < st.syms.length) :
    StInv st (_visit_assign env st targets v rg) := by
  rw [_visit_assign]
  exact stinv_foldl (assign_step env rg)
    (fun s a hs => stinv_assign_step env rg hs hw a) _ (StInv.refl st)

/-- `_visit_ann_assign` preserves the invariant. -/
theorem stinv_visit_ann_assign (target : Target) (ann : PExpr)
    (v : Option PExpr) {st : BState} (hw : stackTop st < st.syms.length) :
    StInv st (_visit_ann_assign st target ann v) := by
  rw [_visit_ann_assign.eq_def]
  split <;> exact stinv_addvars_fold hw _ (StInv.refl st)

/-- The loop-target binding of `visit_for` preserves the invariant. -/
theorem stinv_visit_for_pre (target : Target) {st : BState}
    (hw : stackTop st < st.syms.length) :
    StInv st (visit_for_pre st target) := by
  rw [visit_for_pre]
  exact stinv_addvars_fold hw _ (StInv.refl st)


/-- A decorator scan step preserves the invariant. -/
theorem stinv_apply_decorator {st s : BState} (h : StInv st s) {fid : Nat}
    (hfid : st.syms.length ≤ fid) (dec : PExpr) :
    StInv st (apply_decorator fid s dec) := by
  cases dec with
  | nameExpr id =>
    dsimp only [apply_decorator]
    split
    · split
      · exact stinv_update_fresh (stinv_update_fresh h hfid _) hfid _
      · exact stinv_update_fresh h hfid _
    · split
      · exact stinv_update_fresh h hfid _
      · exact h
  | stringLiteral v => exact h
  | listExpr l => exact h
  | other => exact h

/-- A decorator scan step does not change the store size. -/
theorem len_apply_decorator (fid : Nat) (s : BState) (dec : PExpr) :
    (apply_decorator fid s dec).syms.length = s.syms.length := by
  cases dec with
  | nameExpr id =>
    dsimp only [apply_decorator]
    split <;> split <;> simp [length_updateSym]
  | stringLiteral v => rfl
  | listExpr l => rfl
  | other => rfl

/-- The decorator fold does not change the store size. -/
theorem len_decs_fold (fid : Nat) (d : List PExpr) :
    ∀ s : BState, (d.foldl (apply_decorator fid) s).syms.length
      = s.syms.length := by
  induction d with
  | nil => intro s; rfl
  | cons a rest ih =>
    intro s
    rw [List.foldl_cons, ih, len_apply_decorator]

/-- A parameter materialization step preserves the invariant and grows the
store. -/
theorem stinv_add_param {st s : BState} (h : StInv st s) {fid : Nat}
    (hfid : st.syms.length ≤ fid) (arg : Parameter) :
    StInv st (add_param fid s arg) := by
  rw [add_param]
  refine stinv_update_fresh (stinv_update_fresh
    (stinv_addvar_fresh2 h hfid arg.name arg.range) ?_ _) hfid _
  exact le_trans h.len_le (le_of_eq rfl)

/-- A parameter materialization step adds one symbol. -/
theorem len_add_param (fid : Nat) (s : BState) (arg : Parameter) :
    (add_param fid s arg).syms.length = s.syms.length + 1 := by
  rw [add_param]
  simp [length_updateSym, len_addvar]

/-- Assembly of the parameter fold and the stack push at the end of the
function-definition prefix. -/
theorem pre_assemble {st s3 : BState}
    (h3 : StInv st s3 ∧ st.syms.length < s3.syms.length) {fid : Nat}
    (hfid : st.syms.length ≤ fid) (args : List Parameter) :
    ({ args.foldl (add_param fid) s3 with
        sym_stack := (args.foldl (add_param fid) s3).sym_stack ++ [fid] }).sym_stack
      = st.sym_stack ++ [fid] ∧
    StInv st { { args.foldl (add_param fid) s3 with
        sym_stack := (args.foldl (add_param fid) s3).sym_stack ++ [fid] } with
        sym_stack := st.sym_stack } ∧
    st.syms.length < ({ args.foldl (add_param fid) s3 with
        sym_stack := (args.foldl (add_param fid) s3).sym_stack ++ [fid] }).syms.length := by
  have h4 := @stinvS_foldl Parameter st (add_param fid)
    (fun s a hs => ⟨stinv_add_param hs.1 hfid a, by rw [len_add_param]; omega⟩)
    args s3 h3
  refine ⟨?_, ?_, ?_⟩
  · show (args.foldl (add_param fid) s3).sym_stack ++ [fid]
        = st.sym_stack ++ [fid]
    rw [h4.1.stack_eq]
  · exact h4.1.trans (stinv_same_syms rfl h4.1.stack_eq.symm rfl)
  · exact h4.2

/-- What the prefix of a function definition visit does to the state: the
fresh function is pushed onto the stack, the base invariant holds once the
stack is restored, and the store strictly grew. -/
theorem pre_func_spec (st : BState) (hw : stackTop st < st.syms.length)
    (n : String) (d : List PExpr) (ps : Parameters) (b : StmtList)
    (r : TextRange) :
    (visit_func_def_pre st n d ps b r).sym_stack
        = st.sym_stack ++ [st.syms.length] ∧
    StInv st { visit_func_def_pre st n d ps b r with
      sym_stack := st.sym_stack } ∧
    st.syms.length < (visit_func_def_pre st n d ps b r).syms.length := by
  rw [visit_func_def_pre.eq_def]
  dsimp only
  have hfid : st.syms.length ≤ (add_new_function st (stackTop st) n r).2 :=
    le_of_eq rfl
  have h1 : StInv st (add_new_function st (stackTop st) n r).1 :=
    stinv_addfun_top st n r hw
  have hl1 : st.syms.length <
      (add_new_function st (stackTop st) n r).1.syms.length := by
    rw [add_new_function_eq st (stackTop st) n r hw]
    simp
  have h2 : StInv st (d.foldl
      (apply_decorator (add_new_function st (stackTop st) n r).2)
      (add_new_function st (stackTop st) n r).1) :=
    stinv_foldl _ (fun s a hs => stinv_apply_decorator hs hfid a) d h1
  have hl2 : st.syms.length < (d.foldl
      (apply_decorator (add_new_function st (stackTop st) n r).2)
      (add_new_function st (stackTop st) n r).1).syms.length := by
    rw [len_decs_fold]
    exact hl1
  split
  · exact pre_assemble ⟨stinv_update_fresh h2 hfid _,
      by simpa [length_updateSym] using hl2⟩ hfid (ps.posonlyargs ++ ps.args)
  · exact pre_assemble ⟨h2, hl2⟩ hfid (ps.posonlyargs ++ ps.args)

/-- What the prefix of a class definition visit does to the state: the
fresh class is pushed onto the stack, the base invariant holds once the
stack is restored, and the store strictly grew. -/
theorem pre_class_spec (st : BState) (hw : stackTop st < st.syms.length)
    (n : String) (b : StmtList) (r : TextRange) :
    (visit_class_def_pre st n b r).sym_stack
        = st.sym_stack ++ [st.syms.length] ∧
    StInv st { visit_class_def_pre st n b r with
      sym_stack := st.sym_stack } ∧
    st.syms.length < (visit_class_def_pre st n b r).syms.length := by
  rw [visit_class_def_pre.eq_def]
  dsimp only
  have hfid : st.syms.length ≤ (add_new_class st (stackTop st) n r).2 :=
    le_of_eq rfl
  have h1 : StInv st (add_new_class st (stackTop st) n r).1 :=
    stinv_addcls_top st n r hw
  have hl1 : st.syms.length <
      (add_new_class st (stackTop st) n r).1.syms.length := by
    rw [add_new_class_eq st (stackTop st) n r hw]
    simp
  split
  · exact @pre_assemble st _
      ⟨stinv_update_fresh h1 hfid _,
        by simpa [length_updateSym] using hl1⟩
      ((add_new_class st (stackTop st) n r).2) hfid []
  · exact @pre_assemble st _ ⟨h1, hl1⟩
      ((add_new_class st (stackTop st) n r).2) hfid []

/-- Well-formedness of the stack top propagates along the invariant. -/
theorem StInv.wf_next {st st' : BState} (h : StInv st st')
    (hw : stackTop st < st.syms.length) :
    stackTop st' < st'.syms.length := by
  rw [h.top_eq]
  exact lt_of_lt_of_le hw h.len_le

/-- Popping the stack after walking the body of a pushed container
restores the invariant with respect to the pre-push state. -/
theorem stinv_wrap_pop {st pre wn : BState} (fid : Nat)
    (hstk : pre.sym_stack = st.sym_stack ++ [fid])
    (hinv : StInv st { pre with sym_stack := st.sym_stack })
    (hfid : st.syms.length ≤ fid)
    (hbody : StInv pre wn) :
    StInv st { wn with sym_stack := wn.sym_stack.dropLast } := by
  have htp : stackTop pre = fid := by
    rw [stackTop, hstk, List.getLastD_concat]
  refine ⟨?_, ?_, ?_, fun m hm => ?_⟩
  · show wn.sym_stack.dropLast = st.sym_stack
    rw [hbody.stack_eq, hstk, List.dropLast_concat]
  · show st.syms.length ≤ wn.syms.length
    exact le_trans hinv.len_le hbody.len_le
  · show wn.arch_trace = st.arch_trace
    exact hbody.2.2.1.trans hinv.2.2.1
  · have hm2 : m < pre.syms.length := lt_of_lt_of_le hm hinv.len_le
    obtain ⟨e2, t2, f2, g2⟩ := hbody.2.2.2 m hm2
    have ht2 : t2 = [] := g2 (by rw [htp]; omega)
    obtain ⟨e1, t1, f1, g1⟩ := hinv.2.2.2 m hm
    refine ⟨e2.trans e1, t1, ?_, g1⟩
    rw [ht2, List.append_nil] at f2
    exact f2.trans f1

mutual
/-- Walking a statement sequence satisfies the walk invariant. -/
theorem visit_node_inv (env : Env) (l : StmtList) :
    ∀ st : BState, stackTop st < st.syms.length →
      StInv st (visit_node env st l) := by
  cases l with
  | nil => intro st h; exact StInv.refl st
  | cons s rest =>
    intro st h
    have h1 := visit_stmt_inv env s st h
    have h2 := visit_node_inv env rest (visit_stmt env st s) (h1.wf_next h)
    exact h1.trans h2

/-- Visiting one statement satisfies the walk invariant. -/
theorem visit_stmt_inv (env : Env) (s : Stmt) :
    ∀ st : BState, stackTop st < st.syms.length →
      StInv st (visit_stmt env st s) := by
  cases s with
  | importStmt names range =>
    intro st h
    rw [visit_stmt]
    split
    · exact stinv_create_local env none none range names (StInv.refl st) h names
    · exact StInv.refl st
  | importFrom module names level range =>
    intro st h
    rw [visit_stmt]
    split
    · exact stinv_create_local env module (some level) range names
        (StInv.refl st) h names
    · exact StInv.refl st
  | annAssign target ann value range =>
    intro st h
    rw [visit_stmt]
    split
    · exact stinv_visit_ann_assign target ann value h
    · exact StInv.refl st
  | assign targets value range =>
    intro st h
    rw [visit_stmt]
    split
    · exact stinv_visit_assign env targets value range h
    · exact StInv.refl st
  | functionDef n d ps body r =>
    intro st h
    rw [visit_stmt]
    try dsimp only
    obtain ⟨hstk, hinv, hlen⟩ := pre_func_spec st h n d ps body r
    have hw2 : stackTop (visit_func_def_pre st n d ps body r)
        < (visit_func_def_pre st n d ps body r).syms.length := by
      rw [stackTop, hstk, List.getLastD_concat]
      exact hlen
    have hbody := visit_node_inv env body
      (visit_func_def_pre st n d ps body r) hw2
    exact stinv_wrap_pop st.syms.length hstk hinv le_rfl hbody
  | classDef n body r =>
    intro st h
    rw [visit_stmt]
    try dsimp only
    obtain ⟨hstk, hinv, hlen⟩ := pre_class_spec st h n body r
    have hw2 : stackTop (visit_class_def_pre st n body r)
        < (visit_class_def_pre st n body r).syms.length := by
      rw [stackTop, hstk, List.getLastD_concat]
      exact hlen
    have hbody := visit_node_inv env body (visit_class_def_pre st n body r) hw2
    exact stinv_wrap_pop st.syms.length hstk hinv le_rfl hbody
  | ifStmt body clauses =>
    intro st h
    rw [visit_stmt]
    have h1 := visit_node_inv env body st h
    have h2 := visit_clauses_inv env clauses (visit_node env st body)
      (h1.wf_next h)
    exact h1.trans h2
  | tryStmt body handlers orelse finalbody =>
    intro st h
    rw [visit_stmt]
    have h1 := visit_node_inv env body st h
    have h2 := visit_node_inv env orelse (visit_node env st body) (h1.wf_next h)
    have h3 := visit_node_inv env finalbody
      (visit_node env (visit_node env st body) orelse)
      ((h1.trans h2).wf_next h)
    exact (h1.trans h2).trans h3
  | forStmt target iter body orelse =>
    intro st h
    rw [visit_stmt]
    have h0 := stinv_visit_for_pre target h
    have h1 := visit_node_inv env body (visit_for_pre st target) (h0.wf_next h)
    have h2 := visit_node_inv env orelse
      (visit_node env (visit_for_pre st target) body)
      ((h0.trans h1).wf_next h)
    exact (h0.trans h1).trans h2
  | exprStmt v =>
    intro st h
    exact StInv.refl st
  | otherStmt =>
    intro st h
    exact StInv.refl st

/-- Walking the elif/else clause bodies satisfies the walk invariant. -/
theorem visit_clauses_inv (env : Env) (ls : StmtLists) :
    ∀ st : BState, stackTop st < st.syms.length →
      StInv st (visit_clauses env st ls) := by
  cases ls with
  | nil => intro st h; exact StInv.refl st
  | cons c rest =>
    intro st h
    have h1 := visit_node_inv env c st h
    have h2 := visit_clauses_inv env rest (visit_node env st c) (h1.wf_next h)
    exact h1.trans h2
end

/-- The synthetic-exports materialization fold satisfies the invariant. -/
theorem stinv_resolve_fold {st : BState} (hw : stackTop st < st.syms.length)
    (items : List (String × TextRange)) :
    ∀ {st1 : BState}, StInv st st1 → StInv st (resolve_fold st1 items) := by
  induction items with
  | nil => intro st1 h; rw [resolve_fold]; exact h
  | cons p rest ih =>
    intro st1 h
    rw [resolve_fold]
    split
    · exact ih (stinv_addvar_top_step h hw p.1 p.2)
    · exact ih h

/-- `_resolve_all_symbols` satisfies the invariant. -/
theorem stinv_resolve_all {st : BState} (hw : stackTop st < st.syms.length) :
    StInv st (_resolve_all_symbols st) := by
  rw [_resolve_all_symbols]
  exact stinv_resolve_fold hw st.__all_symbols_to_add
    (stinv_same_syms rfl rfl rfl)

instance : Inhabited Parameter := ⟨⟨"", {}, none⟩⟩

/-- Preservation of every symbol below an index bound. -/
def KeepBelow (k : Nat) (s s' : BState) : Prop :=
  ∀ m, m < k → getSym s' m = getSym s m

theorem keep_refl (k : Nat) (s : BState) : KeepBelow k s s :=
  fun _ _ => rfl

theorem keep_trans {k : Nat} {s1 s2 s3 : BState}
    (h1 : KeepBelow k s1 s2) (h2 : KeepBelow k s2 s3) :
    KeepBelow k s1 s3 :=
  fun m hm => (h2 m hm).trans (h1 m hm)

theorem keep_updateSym (k : Nat) (s : BState) (id : Nat) (f : Symb → Symb)
    (hid : k ≤ id) : KeepBelow k s (updateSym s id f) := by
  intro m hm
  exact getSym_updateSym_ne s id m f (by omega)

theorem keep_addvar (k : Nat) (s : BState) (p : Nat) (n : String)
    (rg : TextRange) (hp : k ≤ p) (hk : k ≤ s.syms.length) :
    KeepBelow k s (add_new_variable s p n rg).1 := by
  intro m hm
  unfold add_new_variable updateSym
  dsimp only
  have hne : p ≠ m := by omega
  rw [getSym_withSyms, @List.getElem?_set_ne _ _ p m hne _,
    List.getElem?_append_left (by omega), ← getSym_eq]

theorem keep_apply_decorator (k : Nat) (s : BState) {fid : Nat}
    (hfid : k ≤ fid) (dec : PExpr) :
    KeepBelow k s (apply_decorator fid s dec) := by
  cases dec with
  | nameExpr id =>
    dsimp only [apply_decorator]
    split
    · split
      · exact keep_trans (keep_updateSym k s fid _ hfid)
          (keep_updateSym k _ fid _ hfid)
      · exact keep_updateSym k s fid _ hfid
    · split
      · exact keep_updateSym k s fid _ hfid
      · exact keep_refl k s
  | stringLiteral v => exact keep_refl k s
  | listExpr l => exact keep_refl k s
  | other => exact keep_refl k s

theorem keep_add_param (k : Nat) (s : BState) {fid : Nat} (hfid : k ≤ fid)
    (hk : k ≤ s.syms.length) (arg : Parameter) :
    KeepBelow k s (add_param fid s arg) := by
  rw [add_param]
  refine keep_trans (keep_trans
    (keep_addvar k s fid arg.name arg.range hfid hk)
    (keep_updateSym k _ _ _ ?_)) (keep_updateSym k _ fid _ hfid)
  show k ≤ s.syms.length
  exact hk

theorem len_ge_add_param (fid : Nat) (s : BState) (arg : Parameter) (k : Nat)
    (hk : k ≤ s.syms.length) : k ≤ (add_param fid s arg).syms.length := by
  rw [len_add_param]
  omega

theorem keep_params_fold (k : Nat) {fid : Nat} (hfid : k ≤ fid)
    (args : List Parameter) :
    ∀ s : BState, k ≤ s.syms.length →
      KeepBelow k s (args.foldl (add_param fid) s) := by
  induction args with
  | nil => intro s _; exact keep_refl k s
  | cons a rest ih =>
    intro s hk
    rw [List.foldl_cons]
    exact keep_trans (keep_add_param k s hfid hk a)
      (ih _ (len_ge_add_param fid s a k hk))

theorem keep_decs_fold (k : Nat) {fid : Nat} (hfid : k ≤ fid)
    (d : List PExpr) :
    ∀ s : BState, KeepBelow k s (d.foldl (apply_decorator fid) s) := by
  induction d with
  | nil => intro s; exact keep_refl k s
  | cons a rest ih =>
    intro s
    rw [List.foldl_cons]
    exact keep_trans (keep_apply_decorator k s hfid a) (ih _)

/-- Erasure of the decorator- and docstring-settable fields. -/
def Symb.dc (x : Symb) : Symb :=
  { x with is_static := false, is_property := false, doc_string := none }

theorem getSym_update_congr (P : Symb → Symb) (s : BState) (i : Nat)
    (f : Symb → Symb) (hf : ∀ x, P (f x) = P x) (id : Nat) :
    P (getSym (updateSym s i f) id) = P (getSym s id) := by
  by_cases h : i = id
  · subst h
    by_cases hl : i < s.syms.length
    · rw [getSym_updateSym_self _ _ _ hl, hf]
    · rw [updateSym, List.set_eq_of_length_le (by omega)]
  · rw [getSym_updateSym_ne _ _ _ _ h]

theorem dc_update_static (s : BState) (i id : Nat) :
    (getSym (updateSym s i (fun x => { x with is_static := true })) id).dc
      = (getSym s id).dc :=
  getSym_update_congr Symb.dc s i (fun x => { x with is_static := true })
    (fun x => rfl) id

theorem dc_update_property (s : BState) (i id : Nat) :
    (getSym (updateSym s i (fun x => { x with is_property := true })) id).dc
      = (getSym s id).dc :=
  getSym_update_congr Symb.dc s i (fun x => { x with is_property := true })
    (fun x => rfl) id

theorem dc_update_doc (s : BState) (i id : Nat) (v : String) :
    (getSym (updateSym s i (fun x => { x with doc_string := some v })) id).dc
      = (getSym s id).dc :=
  getSym_update_congr Symb.dc s i (fun x => { x with doc_string := some v })
    (fun x => rfl) id

theorem dc_apply_decorator (fid : Nat) (s : BState) (dec : PExpr) (id : Nat) :
    (getSym (apply_decorator fid s dec) id).dc = (getSym s id).dc := by
  cases dec with
  | nameExpr nm =>
    dsimp only [apply_decorator]
    split
    · rw [dc_update_property]
      split
      · rw [dc_update_static]
      · rfl
    · split
      · rw [dc_update_static]
      · rfl
  | stringLiteral v => rfl
  | listExpr l => rfl
  | other => rfl

theorem dc_decs_fold (fid : Nat) (d : List PExpr) (id : Nat) :
    ∀ s : BState,
      (getSym (d.foldl (apply_decorator fid) s) id).dc = (getSym s id).dc := by
  induction d with
  | nil => intro s; rfl
  | cons a rest ih =>
    intro s
    rw [List.foldl_cons, ih, dc_apply_decorator]

theorem getSym_addfun_top (st : BState) (n : String) (rg : TextRange)
    (hw : stackTop st < st.syms.length) :
    getSym (add_new_function st (stackTop st) n rg).1 (stackTop st)
      = withChild (getSym st (stackTop st)) st.syms.length := by
  rw [add_new_function_eq st (stackTop st) n rg hw, getSym_withSyms,
    List.getElem?_append_left (by simp [hw]),
    List.getElem?_set_self (by simpa using hw)]
  rfl

theorem getSym_addfun_new (st : BState) (n : String) (rg : TextRange)
    (hw : stackTop st < st.syms.length) :
    getSym (add_new_function st (stackTop st) n rg).1 st.syms.length
      = freshFun st (stackTop st) n rg := by
  rw [add_new_function_eq st (stackTop st) n rg hw, getSym_withSyms,
    List.getElem?_append_right (by simp), List.length_set]
  simp

/-- Exact effect of one parameter materialization step. -/
theorem add_param_step (fid : Nat) (s : BState) (a : Parameter)
    (hf : fid < s.syms.length) :
    (add_param fid s a).syms.length = s.syms.length + 1 ∧
    getSym (add_param fid s a) fid
      = { getSym s fid with
          children := (getSym s fid).children ++ [s.syms.length],
          args := (getSym s fid).args ++
            [{ symbol := s.syms.length, default_value := none,
               is_args := false, is_kwargs := false }] } ∧
    getSym (add_param fid s a) s.syms.length
      = { typ := .VARIABLE, name := a.name, range := a.range,
          parent := some fid, is_external := (getSym s fid).is_external,
          is_parameter := true } ∧
    (∀ m, m < s.syms.length → m ≠ fid →
      getSym (add_param fid s a) m = getSym s m) := by
  rw [add_param]
  dsimp only
  rw [add_new_variable_eq s fid a.name a.range hf]
  dsimp only
  have hlen1 : ((s.syms.set fid (withChild (getSym s fid) s.syms.length))
      ++ [freshVar s fid a.name a.range]).length = s.syms.length + 1 := by
    simp
  have hmid : getSym { s with syms :=
      (s.syms.set fid (withChild (getSym s fid) s.syms.length))
        ++ [freshVar s fid a.name a.range] } s.syms.length
      = freshVar s fid a.name a.range := by
    rw [getSym_withSyms, List.getElem?_append_right (by simp), List.length_set]
    simp
  have hne1 : s.syms.length ≠ fid := by omega
  refine ⟨?_, ?_, ?_, ?_⟩
  · simp [length_updateSym, updateSym]
  · rw [getSym_updateSym_self _ fid _
      (by simp [length_updateSym]; omega)]
    rw [getSym_updateSym_ne _ _ _ _ hne1]
    rw [getSym_withSyms, List.getElem?_append_left (by simp [hf]),
      List.getElem?_set_self (by simpa using hf)]
    rfl
  · rw [getSym_updateSym_ne _ _ _ _ (by omega)]
    rw [getSym_updateSym_self _ _ _ (by rw [hlen1]; omega)]
    rw [hmid]
    rfl
  · intro m hm hmfid
    rw [getSym_updateSym_ne _ _ _ _ (fun hx => hmfid hx.symm)]
    rw [getSym_updateSym_ne _ _ _ _ (by omega)]
    rw [getSym_withSyms, List.getElem?_append_left (by simp [hm]),
      @List.getElem?_set_ne _ _ fid m (fun hx => hmfid hx.symm) _,
      ← getSym_eq]

/-- Exact effect of the parameter materialization fold: fresh consecutive
variable symbols, one per declared parameter, each flagged as parameter and
recorded in order in the function's argument list with no default and both
variadic flags false. -/
theorem params_fold_spec (fid : Nat) :
    ∀ (args : List Parameter) (s : BState), fid < s.syms.length →
      (args.foldl (add_param fid) s).syms.length
          = s.syms.length + args.length ∧
      getSym (args.foldl (add_param fid) s) fid
        = { getSym s fid with
            children := (getSym s fid).children
              ++ List.range' s.syms.length args.length,
            args := (getSym s fid).args ++
              (List.range' s.syms.length args.length).map
                (fun pid => { symbol := pid, default_value := none,
                              is_args := false, is_kwargs := false }) } ∧
      (∀ k, k < args.length →
        getSym (args.foldl (add_param fid) s) (s.syms.length + k)
          = { typ := .VARIABLE, name := (args.getD k default).name,
              range := (args.getD k default).range, parent := some fid,
              is_external := (getSym s fid).is_external,
              is_parameter := true }) ∧
      (∀ m, m < s.syms.length → m ≠ fid →
        getSym (args.foldl (add_param fid) s) m = getSym s m) := by
  intro args
  induction args with
  | nil =>
    intro s hf
    refine ⟨by simp, by simp, fun k hk => absurd hk (by simp),
      fun m _ _ => rfl⟩
  | cons a rest ih =>
    intro s hf
    rw [List.foldl_cons]
    obtain ⟨hl, hfid, hnew, hkeep⟩ := add_param_step fid s a hf
    obtain ⟨ihl, ihfid, ihnew, ihkeep⟩ := ih (add_param fid s a)
      (by rw [hl]; omega)
    have hne : s.syms.length ≠ fid := by omega
    refine ⟨?_, ?_, ?_, ?_⟩
    · rw [ihl, hl]
      simp [List.length_cons]
      try omega
    · rw [ihfid, hfid, hl]
      simp [List.range'_succ, List.append_assoc]
    · intro k hk
      cases k with
      | zero =>
        rw [Nat.add_zero,
          ihkeep s.syms.length (by rw [hl]; omega) hne, hnew]
        simp
      | succ k2 =>
        have hidx : s.syms.length + (k2 + 1)
            = (add_param fid s a).syms.length + k2 := by
          rw [hl]
          omega
        rw [hidx, ihnew k2 (by simpa using hk), hfid]
        simp
    · intro m hm hmf
      rw [ihkeep m (by omega) hmf, hkeep m hm hmf]

/-- Characterization of the function-definition prefix from the state after
the decorator and docstring stages: the parameter fold creates the
consecutive parameter variables and the function's argument list. -/
theorem pre_detail_from_s3 {st : BState} (hw : stackTop st < st.syms.length)
    (n : String) (r : TextRange) {s3 : BState} (nps : List Parameter)
    (h3top : getSym s3 (stackTop st)
      = withChild (getSym st (stackTop st)) st.syms.length)
    (h3dc : (getSym s3 st.syms.length).dc
      = (freshFun st (stackTop st) n r).dc)
    (h3len : s3.syms.length = st.syms.length + 1)
    (h3keep : ∀ m, m < st.syms.length → m ≠ stackTop st →
      getSym s3 m = getSym st m) :
    (nps.foldl (add_param st.syms.length) s3).syms.length
        = st.syms.length + 1 + nps.length ∧
    (getSym (nps.foldl (add_param st.syms.length) s3) (stackTop st)).children
        = (getSym st (stackTop st)).children ++ [st.syms.length] ∧
    (getSym (nps.foldl (add_param st.syms.length) s3) st.syms.length).typ
        = .FUNCTION ∧
    (getSym (nps.foldl (add_param st.syms.length) s3) st.syms.length).name
        = n ∧
    (getSym (nps.foldl (add_param st.syms.length) s3) st.syms.length).args
        = (List.range' (st.syms.length + 1) nps.length).map
            (fun pid => { symbol := pid, default_value := none,
                          is_args := false, is_kwargs := false }) ∧
    (getSym (nps.foldl (add_param st.syms.length) s3) st.syms.length).children
        = List.range' (st.syms.length + 1) nps.length ∧
    (∀ k, k < nps.length →
      getSym (nps.foldl (add_param st.syms.length) s3)
          (st.syms.length + 1 + k)
        = { typ := .VARIABLE, name := (nps.getD k default).name,
            range := (nps.getD k default).range,
            parent := some st.syms.length,
            is_external := (getSym st (stackTop st)).is_external,
            is_parameter := true }) ∧
    (∀ m, m < st.syms.length → m ≠ stackTop st →
      getSym (nps.foldl (add_param st.syms.length) s3) m = getSym st m) := by
  have hfs3 : st.syms.length < s3.syms.length := by omega
  obtain ⟨p1, p2, p3, p4⟩ := params_fold_spec st.syms.length nps s3 hfs3
  have htyp : (getSym s3 st.syms.length).typ = SymType.FUNCTION := by
    have h := congrArg Symb.typ h3dc
    exact h
  have hname : (getSym s3 st.syms.length).name = n := by
    have h := congrArg Symb.name h3dc
    exact h
  have hargs : (getSym s3 st.syms.length).args = [] := by
    have h := congrArg Symb.args h3dc
    exact h
  have hch : (getSym s3 st.syms.length).children = [] := by
    have h := congrArg Symb.children h3dc
    exact h
  have hext : (getSym s3 st.syms.length).is_external
      = (getSym st (stackTop st)).is_external := by
    have h := congrArg Symb.is_external h3dc
    exact h
  refine ⟨?_, ?_, ?_, ?_, ?_, ?_, ?_, ?_⟩
  · rw [p1, h3len]
  · rw [p4 (stackTop st) (by omega) (by omega), h3top]
    rfl
  · rw [p2]
    exact htyp
  · rw [p2]
    exact hname
  · rw [p2]
    show (getSym s3 st.syms.length).args ++ _ = _
    rw [hargs, h3len]
    simp
  · rw [p2]
    show (getSym s3 st.syms.length).children ++ _ = _
    rw [hch, h3len]
    simp
  · intro k hk
    have hidx : st.syms.length + 1 + k = s3.syms.length + k := by omega
    rw [hidx, p3 k hk, hext]
  · intro m hm hmt
    rw [p4 m (by omega) (by omega), h3keep m hm hmt]

theorem getSym_addfun_other (st : BState) (n : String) (rg : TextRange)
    (hw : stackTop st < st.syms.length) (m : Nat) (hm : m < st.syms.length)
    (hmt : m ≠ stackTop st) :
    getSym (add_new_function st (stackTop st) n rg).1 m = getSym st m := by
  rw [add_new_function_eq st _ n rg hw, getSym_withSyms,
    List.getElem?_append_left (by simp [hm]),
    @List.getElem?_set_ne _ _ (stackTop st) m (fun hx => hmt hx.symm) _,
    ← getSym_eq]

/-- Detailed characterization of the function-definition prefix: store
growth, the one child added to the enclosing container, and the function's
kind, name, argument list, children and parameter variables. -/
theorem pre_func_detail (st : BState) (hw : stackTop st < st.syms.length)
    (n : String) (d : List PExpr) (ps : Parameters) (b : StmtList)
    (r : TextRange) :
    (visit_func_def_pre st n d ps b r).syms.length
        = st.syms.length + 1 + (ps.posonlyargs ++ ps.args).length ∧
    (getSym (visit_func_def_pre st n d ps b r) (stackTop st)).children
        = (getSym st (stackTop st)).children ++ [st.syms.length] ∧
    (getSym (visit_func_def_pre st n d ps b r) st.syms.length).typ
        = .FUNCTION ∧
    (getSym (visit_func_def_pre st n d ps b r) st.syms.length).name = n ∧
    (getSym (visit_func_def_pre st n d ps b r) st.syms.length).args
        = (List.range' (st.syms.length + 1)
            (ps.posonlyargs ++ ps.args).length).map
            (fun pid => { symbol := pid, default_value := none,
                          is_args := false, is_kwargs := false }) ∧
    (getSym (visit_func_def_pre st n d ps b r) st.syms.length).children
        = List.range' (st.syms.length + 1)
            (ps.posonlyargs ++ ps.args).length ∧
    (∀ k, k < (ps.posonlyargs ++ ps.args).length →
      getSym (visit_func_def_pre st n d ps b r) (st.syms.length + 1 + k)
        = { typ := .VARIABLE,
            name := ((ps.posonlyargs ++ ps.args).getD k default).name,
            range := ((ps.posonlyargs ++ ps.args).getD k default).range,
            parent := some st.syms.length,
            is_external := (getSym st (stackTop st)).is_external,
            is_parameter := true }) ∧
    (∀ m, m < st.syms.length → m ≠ stackTop st →
      getSym (visit_func_def_pre st n d ps b r) m = getSym st m) := by
  have hfl : st.syms.length ≤ (add_new_function st (stackTop st) n r).2 :=
    le_of_eq rfl
  have f1 := getSym_addfun_top st n r hw
  have f2 := getSym_addfun_new st n r hw
  have len1 : (add_new_function st (stackTop st) n r).1.syms.length
      = st.syms.length + 1 := by
    rw [add_new_function_eq st (stackTop st) n r hw]
    simp
  have keep2 := keep_decs_fold st.syms.length hfl d
    (add_new_function st (stackTop st) n r).1
  have dc2 := dc_decs_fold (add_new_function st (stackTop st) n r).2 d
    st.syms.length (add_new_function st (stackTop st) n r).1
  have len2 : (d.foldl
      (apply_decorator (add_new_function st (stackTop st) n r).2)
      (add_new_function st (stackTop st) n r).1).syms.length
      = st.syms.length + 1 := by
    rw [len_decs_fold]
    exact len1
  rw [visit_func_def_pre.eq_def]
  dsimp only
  split
  · rename_i v rest
    refine pre_detail_from_s3 hw n r (ps.posonlyargs ++ ps.args) ?_ ?_ ?_ ?_
    · exact (keep_updateSym st.syms.length _ _ _ hfl (stackTop st) hw).trans
        ((keep2 (stackTop st) hw).trans f1)
    · have h := congrArg Symb.dc f2
      exact (dc_update_doc _ _ st.syms.length v).trans (dc2.trans h)
    · rw [length_updateSym]
      exact len2
    · intro m hm hmt
      exact ((keep_updateSym st.syms.length _ _ _ hfl m hm).trans
        (keep2 m hm)).trans (getSym_addfun_other st n r hw m hm hmt)
  · refine pre_detail_from_s3 hw n r (ps.posonlyargs ++ ps.args) ?_ ?_ ?_ ?_
    · exact (keep2 (stackTop st) hw).trans f1
    · have h := congrArg Symb.dc f2
      exact dc2.trans h
    · exact len2
    · intro m hm hmt
      exact (keep2 m hm).trans (getSym_addfun_other st n r hw m hm hmt)

/-- Net effect of visiting a function definition, body walk included: the
enclosing container gains exactly the function child; the function keeps
its kind, name and recorded argument list; the parameter variables keep
their identity; any other pre-existing symbol keeps its children. -/
theorem func_def_effect (env : Env) (st : BState)
    (hw : stackTop st < st.syms.length) (n : String) (d : List PExpr)
    (ps : Parameters) (body : StmtList) (r : TextRange) :
    (getSym (visit_stmt env st (.functionDef n d ps body r))
        (stackTop st)).children
      = (getSym st (stackTop st)).children ++ [st.syms.length] ∧
    (getSym (visit_stmt env st (.functionDef n d ps body r))
        st.syms.length).typ = .FUNCTION ∧
    (getSym (visit_stmt env st (.functionDef n d ps body r))
        st.syms.length).name = n ∧
    (getSym (visit_stmt env st (.functionDef n d ps body r))
        st.syms.length).args
      = (List.range' (st.syms.length + 1)
          (ps.posonlyargs ++ ps.args).length).map
          (fun pid => { symbol := pid, default_value := none,
                        is_args := false, is_kwargs := false }) ∧
    (∀ k, k < (ps.posonlyargs ++ ps.args).length →
      (getSym (visit_stmt env st (.functionDef n d ps body r))
          (st.syms.length + 1 + k)).typ = .VARIABLE ∧
      (getSym (visit_stmt env st (.functionDef n d ps body r))
          (st.syms.length + 1 + k)).name
        = ((ps.posonlyargs ++ ps.args).getD k default).name ∧
      (getSym (visit_stmt env st (.functionDef n d ps body r))
          (st.syms.length + 1 + k)).range
        = ((ps.posonlyargs ++ ps.args).getD k default).range ∧
      (getSym (visit_stmt env st (.functionDef n d ps body r))
          (st.syms.length + 1 + k)).is_parameter = true ∧
      (getSym (visit_stmt env st (.functionDef n d ps body r))
          (st.syms.length + 1 + k)).parent = some st.syms.length) ∧
    (∀ m, m < st.syms.length → m ≠ stackTop st →
      (getSym (visit_stmt env st (.functionDef n d ps body r)) m).children
        = (getSym st m).children) := by
  obtain ⟨pd1, pd2, pd3, pd4, pd5, pd6, pd7, pd8⟩ :=
    pre_func_detail st hw n d ps body r
  obtain ⟨hstk, hinv, hlen⟩ := pre_func_spec st hw n d ps body r
  have htoppre : stackTop (visit_func_def_pre st n d ps body r)
      = st.syms.length := by
    rw [stackTop, hstk, List.getLastD_concat]
  have hw2 : stackTop (visit_func_def_pre st n d ps body r)
      < (visit_func_def_pre st n d ps body r).syms.length := by
    rw [htoppre]
    exact hlen
  have hbody := visit_node_inv env body (visit_func_def_pre st n d ps body r)
    hw2
  have hprelen : (visit_func_def_pre st n d ps body r).syms.length
      = st.syms.length + 1 + (ps.posonlyargs ++ ps.args).length := pd1
  -- the final state reads the walked body state's store
  have hget : ∀ m, getSym (visit_stmt env st (.functionDef n d ps body r)) m
      = getSym (visit_node env (visit_func_def_pre st n d ps body r) body)
          m := fun m => rfl
  have hch : ∀ m, m < (visit_func_def_pre st n d ps body r).syms.length →
      m ≠ st.syms.length →
      (getSym (visit_node env (visit_func_def_pre st n d ps body r) body)
          m).children
        = (getSym (visit_func_def_pre st n d ps body r) m).children := by
    intro m hm hmne
    obtain ⟨e, t, ft, g⟩ := hbody.2.2.2 m hm
    rw [ft, g (by rw [htoppre]; exact hmne)]
    simp
  have hcore : ∀ m, m < (visit_func_def_pre st n d ps body r).syms.length →
      (getSym (visit_node env (visit_func_def_pre st n d ps body r) body)
          m).core
        = (getSym (visit_func_def_pre st n d ps body r) m).core :=
    fun m hm => (hbody.2.2.2 m hm).1
  refine ⟨?_, ?_, ?_, ?_, ?_, ?_⟩
  · rw [hget, hch (stackTop st) (by omega) (by omega), pd2]
  · rw [hget]
    have h := congrArg Symb.typ (hcore st.syms.length (by omega))
    exact h.trans pd3
  · rw [hget]
    have h := congrArg Symb.name (hcore st.syms.length (by omega))
    exact h.trans pd4
  · rw [hget]
    have h := congrArg Symb.args (hcore st.syms.length (by omega))
    exact h.trans pd5
  · intro k hk
    have hpk : st.syms.length + 1 + k
        < (visit_func_def_pre st n d ps body r).syms.length := by omega
    have h := hcore (st.syms.length + 1 + k) hpk
    have hp := pd7 k hk
    refine ⟨?_, ?_, ?_, ?_, ?_⟩
    · rw [hget]
      have h2 := congrArg Symb.typ h
      exact h2.trans (congrArg Symb.typ hp)
    · rw [hget]
      have h2 := congrArg Symb.name h
      exact h2.trans (congrArg Symb.name hp)
    · rw [hget]
      have h2 := congrArg Symb.range h
      exact h2.trans (congrArg Symb.range hp)
    · rw [hget]
      have h2 := congrArg Symb.is_parameter h
      exact h2.trans (congrArg Symb.is_parameter hp)
    · rw [hget]
      have h2 := congrArg Symb.parent h
      exact h2.trans (congrArg Symb.parent hp)
  · intro m hm hmt
    rw [hget, hch m (by omega) (by omega), pd8 m hm hmt]

/-! ### Claims -/

theorem extract_elems_spec (l : List PExpr) :
    (extract_elems l).1 = l.filterMap stringLitVal ∧
    ((extract_elems l).2 = true ↔ ∃ e ∈ l, e.isStringLit = false) := by
  induction l with
  | nil => simp [extract_elems]
  | cons e rest ih =>
    cases e with
    | stringLiteral s =>
      refine ⟨?_, ?_⟩
      · simp [extract_elems, stringLitVal, ih.1]
      · rw [show (extract_elems (PExpr.stringLiteral s :: rest)).2
            = (extract_elems rest).2 from rfl, ih.2]
        simp [PExpr.isStringLit]
    | nameExpr id =>
      refine ⟨by simp [extract_elems, stringLitVal, ih.1], ?_⟩
      constructor
      · intro _
        exact ⟨.nameExpr id, by simp, rfl⟩
      · intro _
        rfl
    | listExpr elts =>
      refine ⟨by simp [extract_elems, stringLitVal, ih.1], ?_⟩
      constructor
      · intro _
        exact ⟨.listExpr elts, by simp, rfl⟩
      · intro _
        rfl
    | other =>
      refine ⟨by simp [extract_elems, stringLitVal, ih.1], ?_⟩
      constructor
      · intro _
        exact ⟨.other, by simp, rfl⟩
      · intro _
        rfl

/-- C3: the exports extractor returns `(names, parse_error)` with: no value,
`Any`, or `Dict` giving `(∅, true)`; a string-literal constant giving its
singleton with no error; any other constant giving `(∅, true)`; and a list
or tuple giving exactly its string-literal elements in element order, the
error flag set precisely when some element is not a string literal. -/
theorem c3_exports_extractor :
    extract_all_symbol_eval_values none = ([], true) ∧
    extract_all_symbol_eval_values (some .ANY) = ([], true) ∧
    extract_all_symbol_eval_values (some .DICT) = ([], true) ∧
    (∀ s : String, extract_all_symbol_eval_values
      (some (.CONSTANT (.stringLiteral s))) = ([s], false)) ∧
    (∀ e : PExpr, e.isStringLit = false →
      extract_all_symbol_eval_values (some (.CONSTANT e)) = ([], true)) ∧
    (∀ l : List PExpr,
      (extract_all_symbol_eval_values (some (.LIST l))).1
          = l.filterMap stringLitVal ∧
      ((extract_all_symbol_eval_values (some (.LIST l))).2 = true ↔
        ∃ e ∈ l, e.isStringLit = false)) ∧
    (∀ t : List PExpr,
      (extract_all_symbol_eval_values (some (.TUPLE t))).1
          = t.filterMap stringLitVal ∧
      ((extract_all_symbol_eval_values (some (.TUPLE t))).2 = true ↔
        ∃ e ∈ t, e.isStringLit = false)) := by
  refine ⟨rfl, rfl, rfl, fun s => rfl, ?_, ?_, ?_⟩
  · intro e he
    cases e with
    | stringLiteral s => simp [PExpr.isStringLit] at he
    | nameExpr id => rfl
    | listExpr l => rfl
    | other => rfl
  · intro l
    exact extract_elems_spec l
  · intro t
    exact extract_elems_spec t

/-- Witness for C3 at concrete inputs: a non-string constant, and a list
with one string and one non-string element. -/
theorem c3_exports_extractor_witness :
    extract_all_symbol_eval_values (some (.CONSTANT .other)) = ([], true) ∧
    (extract_all_symbol_eval_values
      (some (.LIST [.stringLiteral "x", .other, .stringLiteral "y"]))).1
        = ["x", "y"] ∧
    (extract_all_symbol_eval_values
      (some (.LIST [.stringLiteral "x", .other]))).2 = true := by
  refine ⟨c3_exports_extractor.2.2.2.2.1 PExpr.other rfl, ?_, ?_⟩
  · rw [(c3_exports_extractor.2.2.2.2.2.1
      [.stringLiteral "x", .other, .stringLiteral "y"]).1]
    rfl
  · exact (c3_exports_extractor.2.2.2.2.2.1
      [.stringLiteral "x", .other]).2.mpr ⟨.other, by simp, rfl⟩

/-- C10: walking a Try statement descends exactly into the try body, the
else body and the finally body; the except-handler bodies are never
visited, so the outcome is independent of the handler suites and no symbol
is created from anything defined inside them. -/
theorem c10_try_handlers_ignored (env : Env) (st : BState) (body : StmtList)
    (handlers handlers2 : StmtLists) (orelse finalbody : StmtList) :
    visit_stmt env st (.tryStmt body handlers orelse finalbody)
      = visit_try env st body handlers orelse finalbody ∧
    visit_try env st body handlers orelse finalbody
      = visit_try env st body handlers2 orelse finalbody ∧
    visit_try env st body handlers orelse finalbody
      = visit_node env (visit_node env (visit_node env st body) orelse)
          finalbody :=
  ⟨rfl, rfl, rfl⟩

/-- A fixture environment whose resolver fails, whose evaluator returns
nothing, and whose file manager has no syntax tree. -/
def envA : Env where
  resolve_import_stmt := fun _ _ _ _ =>
    { found := false, symbol := 0, file_tree := (["p"], ["q"]), range := {} }
  eval_from_ast := fun _ _ _ => ([], [])
  file_of := fun _ => none
  is_in_workspace := fun _ => false
  update_file_info := fun _ => { ast := none }
  init_path := fun p => p

/-- A fixture state: a module symbol with a function symbol on top of the
stack, as during the walk of a function body. -/
def stFun : BState where
  syms := [{ typ := .FILE, name := "mod", paths := ["m.py"] },
           { typ := .FUNCTION, name := "f", parent := some 0 }]
  sym_stack := [0, 1]

/-- C9: the For dispatch is not gated on the kind of the top of the stack:
even with a Function container on top, the loop target is bound as a
Variable child of that container — unlike Assign and Import statements,
which are skipped there. -/
theorem c9_for_not_gated (env : Env) (st : BState) (nm : String)
    (r : TextRange) (iter v : PExpr) (rng : TextRange)
    (hw : stackTop st < st.syms.length)
    (hf : (getSym st (stackTop st)).typ = .FUNCTION) :
    (getSym (visit_stmt env st (.forStmt (.name nm r) iter .nil .nil))
        (stackTop st)).children
      = (getSym st (stackTop st)).children ++ [st.syms.length] ∧
    getSym (visit_stmt env st (.forStmt (.name nm r) iter .nil .nil))
        st.syms.length
      = freshVar st (stackTop st) nm r ∧
    visit_stmt env st (.assign [.name nm r] v rng) = st ∧
    visit_stmt env st (.importStmt [⟨nm, none, r⟩] rng) = st := by
  have hfor : visit_stmt env st (.forStmt (.name nm r) iter .nil .nil)
      = (add_new_variable st (stackTop st) nm r).1 := rfl
  refine ⟨?_, ?_, ?_, ?_⟩
  · rw [hfor, add_new_variable_eq st (stackTop st) nm r hw, getSym_withSyms,
      List.getElem?_append_left (by simp [hw]),
      List.getElem?_set_self (by simpa using hw)]
    rfl
  · rw [hfor, add_new_variable_eq st (stackTop st) nm r hw, getSym_withSyms,
      List.getElem?_append_right (by simp), List.length_set]
    simp
  · rw [visit_stmt]
    simp [hf]
  · rw [visit_stmt]
    simp [hf]

/-- Witness for C9: inside the fixture function, a `for` over `i` binds a
child on the function while an assignment to `i` binds nothing. -/
theorem c9_for_not_gated_witness :
    (getSym (visit_stmt envA stFun (.forStmt (.name "i" {}) .other .nil .nil))
        (stackTop stFun)).children
      = (getSym stFun (stackTop stFun)).children ++ [stFun.syms.length] ∧
    visit_stmt envA stFun (.assign [.name "i" {}] .other {}) = stFun := by
  have h := c9_for_not_gated envA stFun "i" {} .other .other {}
    (by decide) (by decide)
  exact ⟨h.1, h.2.2.1⟩

/-- A fixture state: a single module symbol at the bottom of the stack. -/
def stMod : BState where
  syms := [{ typ := .FILE, name := "mod", paths := ["m.py"] }]
  sym_stack := [0]

/-- Counterexample to C1 as stated: with a Class container on top of the
stack (here entered through a class definition at module level), an Assign
statement in the class body does create a Variable child of that Class
container. -/
theorem c1_counterexample :
    (getSym (visit_node envA stMod
      (.cons (.classDef "C"
        (.cons (.assign [.name "x" {}] .other {}) .nil) {}) .nil)) 1).typ
      = .CLASS ∧
    (getSym (visit_node envA stMod
      (.cons (.classDef "C"
        (.cons (.assign [.name "x" {}] .other {}) .nil) {}) .nil)) 2).typ
      = .VARIABLE ∧
    (getSym (visit_node envA stMod
      (.cons (.classDef "C"
        (.cons (.assign [.name "x" {}] .other {}) .nil) {}) .nil)) 2).name
      = "x" ∧
    (getSym (visit_node envA stMod
      (.cons (.classDef "C"
        (.cons (.assign [.name "x" {}] .other {}) .nil) {}) .nil)) 1).children
      = [2] :=
  ⟨rfl, rfl, rfl, rfl⟩

/-- C1 (amended): while a Function container is on top of the stack,
Assign, AnnAssign, Import and ImportFrom statements are skipped entirely
(a Class container on top does receive such Variable children); nested
function definitions add exactly the one Function child to the enclosing
container, and no pre-existing symbol other than that container gains any
child from the function's body. -/
theorem c1_scope_law :
    (∀ (env : Env) (st : BState) (targets : List Target) (v : PExpr)
        (rng : TextRange), (getSym st (stackTop st)).typ = .FUNCTION →
      visit_stmt env st (.assign targets v rng) = st) ∧
    (∀ (env : Env) (st : BState) (t : Target) (ann : PExpr)
        (vo : Option PExpr) (rng : TextRange),
        (getSym st (stackTop st)).typ = .FUNCTION →
      visit_stmt env st (.annAssign t ann vo rng) = st) ∧
    (∀ (env : Env) (st : BState) (names : List Alias) (rng : TextRange),
        (getSym st (stackTop st)).typ = .FUNCTION →
      visit_stmt env st (.importStmt names rng) = st) ∧
    (∀ (env : Env) (st : BState) (mod : Option String) (names : List Alias)
        (lvl : Nat) (rng : TextRange),
        (getSym st (stackTop st)).typ = .FUNCTION →
      visit_stmt env st (.importFrom mod names lvl rng) = st) ∧
    (∀ (env : Env) (st : BState) (n : String) (d : List PExpr)
        (ps : Parameters) (body : StmtList) (r : TextRange),
        stackTop st < st.syms.length →
      (getSym (visit_stmt env st (.functionDef n d ps body r))
          (stackTop st)).children
        = (getSym st (stackTop st)).children ++ [st.syms.length] ∧
      (getSym (visit_stmt env st (.functionDef n d ps body r))
          st.syms.length).typ = .FUNCTION ∧
      (∀ m, m < st.syms.length → m ≠ stackTop st →
        (getSym (visit_stmt env st (.functionDef n d ps body r)) m).children
          = (getSym st m).children)) := by
  refine ⟨?_, ?_, ?_, ?_, ?_⟩
  · intro env st targets v rng hf
    rw [visit_stmt]
    simp [hf]
  · intro env st t ann vo rng hf
    rw [visit_stmt]
    simp [hf]
  · intro env st names rng hf
    rw [visit_stmt]
    simp [hf]
  · intro env st mod names lvl rng hf
    rw [visit_stmt]
    simp [hf]
  · intro env st n d ps body r hw
    obtain ⟨e1, e2, _, _, _, e6⟩ := func_def_effect env st hw n d ps body r
    exact ⟨e1, e2, e6⟩

/-- Witness for C1: in the fixture function an assignment is skipped; at
module level a function definition with an Assign and an Import in its body
adds exactly the function child to the module. -/
theorem c1_scope_law_witness :
    visit_stmt envA stFun (.assign [.name "x" {}] .other {}) = stFun ∧
    (getSym (visit_stmt envA stMod (.functionDef "f" [] {}
        (.cons (.assign [.name "x" {}] .other {})
          (.cons (.importStmt [⟨"os", none, {}⟩] {}) .nil)) {}))
        (stackTop stMod)).children
      = (getSym stMod (stackTop stMod)).children ++ [stMod.syms.length] := by
  refine ⟨c1_scope_law.1 envA stFun [.name "x" {}] .other {} (by decide), ?_⟩
  exact (c1_scope_law.2.2.2.2 envA stMod "f" [] {}
    (.cons (.assign [.name "x" {}] .other {})
      (.cons (.importStmt [⟨"os", none, {}⟩] {}) .nil)) {} (by decide)).1

/-- A parameter table with one positional-only, one positional-or-keyword
and one variadic star parameter. -/
def psW : Parameters :=
  { posonlyargs := [{ name := "p", range := {} }],
    args := [{ name := "q", range := {} }],
    vararg := some { name := "a", range := {} } }

/-- Counterexample to C7 as stated: a function whose only declared
parameter is the variadic star parameter `a` ends up with an empty argument
list and no symbol named `a` at all; in particular no Argument with
`is_args = true` is ever recorded. -/
theorem c7_counterexample :
    (getSym (visit_stmt envA stMod (.functionDef "f" []
      { vararg := some { name := "a", range := {} } } .nil {})) 1).args
      = [] ∧
    (visit_stmt envA stMod (.functionDef "f" []
      { vararg := some { name := "a", range := {} } } .nil {})).syms.length
      = 2 ∧
    get_content_symbol (visit_stmt envA stMod (.functionDef "f" []
      { vararg := some { name := "a", range := {} } } .nil {})) 1 "a"
      = [] :=
  ⟨rfl, rfl, rfl⟩

/-- C7 (amended): exactly the positional-only and positional-or-keyword
parameters, in declaration order, are materialized as Variables inside the
function with `is_parameter = true` and recorded in the function's ordered
argument list with no default value and `is_args = is_kwargs = false`;
variadic star, keyword-only and double-star parameters are not processed. -/
theorem c7_parameters (env : Env) (st : BState)
    (hw : stackTop st < st.syms.length) (n : String) (d : List PExpr)
    (ps : Parameters) (body : StmtList) (r : TextRange) :
    (getSym (visit_stmt env st (.functionDef n d ps body r))
        st.syms.length).args
      = (List.range' (st.syms.length + 1)
          (ps.posonlyargs ++ ps.args).length).map
          (fun pid => { symbol := pid, default_value := none,
                        is_args := false, is_kwargs := false }) ∧
    (∀ k, k < (ps.posonlyargs ++ ps.args).length →
      (getSym (visit_stmt env st (.functionDef n d ps body r))
          (st.syms.length + 1 + k)).typ = .VARIABLE ∧
      (getSym (visit_stmt env st (.functionDef n d ps body r))
          (st.syms.length + 1 + k)).name
        = ((ps.posonlyargs ++ ps.args).getD k default).name ∧
      (getSym (visit_stmt env st (.functionDef n d ps body r))
          (st.syms.length + 1 + k)).range
        = ((ps.posonlyargs ++ ps.args).getD k default).range ∧
      (getSym (visit_stmt env st (.functionDef n d ps body r))
          (st.syms.length + 1 + k)).is_parameter = true ∧
      (getSym (visit_stmt env st (.functionDef n d ps body r))
          (st.syms.length + 1 + k)).parent = some st.syms.length) := by
  obtain ⟨_, _, _, e4, e5, _⟩ := func_def_effect env st hw n d ps body r
  exact ⟨e4, e5⟩

/-- Witness for C7: at module level, a function over `psW` records exactly
the two non-variadic parameters. -/
theorem c7_parameters_witness :
    (getSym (visit_stmt envA stMod (.functionDef "f" [] psW .nil {})) 1).args
      = [{ symbol := 2, default_value := none,
           is_args := false, is_kwargs := false },
         { symbol := 3, default_value := none,
           is_args := false, is_kwargs := false }] ∧
    (getSym (visit_stmt envA stMod (.functionDef "f" [] psW .nil {})) 2).name
      = "p" ∧
    (getSym (visit_stmt envA stMod
      (.functionDef "f" [] psW .nil {})) 2).is_parameter = true := by
  have h := c7_parameters envA stMod (by decide) "f" [] psW .nil {}
  exact ⟨h.1, (h.2 0 (by decide)).2.1, (h.2 0 (by decide)).2.2.2.1⟩

/-- C6: a wildcard import whose resolution fails inserts the file symbol
into the scheduler's not-found set, appends exactly one entry — the
concatenation of the two halves of the resolver's file tree — to the file
symbol's not-found paths under phase Arch, creates no local bindings, and
changes nothing else. -/
theorem c6_wildcard_not_found (env : Env) (st : BState) (root : Nat)
    (fs : Option String) (lv : Option Nat) (rng : TextRange) (a : Alias)
    (hstack : st.sym_stack = [root])
    (hroot : root < st.syms.length)
    (ha : a.name = "*")
    (hres : (env.resolve_import_stmt fs [a] lv rng).found = false) :
    create_local_symbols_from_import_stmt env st fs [a] lv rng
      = { st with
          not_found_symbols := st.not_found_symbols ++ [root],
          syms := st.syms.set root { getSym st root with
            not_found_paths := (getSym st root).not_found_paths ++
              [(BuildSteps.ARCH,
                (env.resolve_import_stmt fs [a] lv rng).file_tree.1
                  ++ (env.resolve_import_stmt fs [a] lv rng).file_tree.2)] } } ∧
    (create_local_symbols_from_import_stmt env st fs [a] lv rng).syms.length
      = st.syms.length ∧
    (getSym (create_local_symbols_from_import_stmt env st fs [a] lv rng)
        root).children
      = (getSym st root).children := by
  have hstep : create_local_symbols_from_import_stmt env st fs [a] lv rng
      = process_import_alias env fs [a] lv rng st a := rfl
  have hmain : create_local_symbols_from_import_stmt env st fs [a] lv rng
      = { st with
          not_found_symbols := st.not_found_symbols ++ [root],
          syms := st.syms.set root { getSym st root with
            not_found_paths := (getSym st root).not_found_paths ++
              [(BuildSteps.ARCH,
                (env.resolve_import_stmt fs [a] lv rng).file_tree.1
                  ++ (env.resolve_import_stmt fs [a] lv rng).file_tree.2)] } } := by
    rw [hstep, process_import_alias.eq_def]
    simp only [ha, if_pos, hstack]
    rw [if_neg (by simp)]
    try dsimp only
    rw [if_pos hres]
    have hbs : stackBottom st = root := by
      rw [stackBottom, hstack]
      rfl
    rw [hbs]
    rfl
  refine ⟨hmain, ?_, ?_⟩
  · rw [hmain]
    simp
  · have hc : getSym (create_local_symbols_from_import_stmt env st fs [a] lv rng)
        root
        = { getSym st root with not_found_paths :=
              (getSym st root).not_found_paths ++
              [(BuildSteps.ARCH,
                (env.resolve_import_stmt fs [a] lv rng).file_tree.1
                  ++ (env.resolve_import_stmt fs [a] lv rng).file_tree.2)] } := by
      rw [hmain, getSym_eq]
      dsimp only
      rw [List.getElem?_set_self (by simpa using hroot)]
      rfl
    rw [hc]

/-- Witness for C6: with the failing fixture resolver, a wildcard import
into the fixture module records the not-found data and nothing else. -/
theorem c6_wildcard_not_found_witness :
    (create_local_symbols_from_import_stmt envA stMod none
      [⟨"*", none, {}⟩] none {}).not_found_symbols = [0] ∧
    (getSym (create_local_symbols_from_import_stmt envA stMod none
      [⟨"*", none, {}⟩] none {}) 0).not_found_paths
      = [(BuildSteps.ARCH, ["p", "q"])] ∧
    (create_local_symbols_from_import_stmt envA stMod none
      [⟨"*", none, {}⟩] none {}).syms.length = stMod.syms.length := by
  have h := c6_wildcard_not_found envA stMod 0 none none {}
    ⟨"*", none, {}⟩ rfl (by decide) rfl rfl
  refine ⟨?_, ?_, h.2.1⟩
  · rw [h.1]
    rfl
  · rw [h.1]
    rfl

/-- Order index of a build status. -/
def BuildStatus.idx : BuildStatus → Nat
  | .PENDING => 0
  | .IN_PROGRESS => 1
  | .DONE => 2

theorem getSym_update_proj {β : Type} (P : Symb → β) (s : BState) (i : Nat)
    (f : Symb → Symb) (hf : ∀ x, P (f x) = P x) (id : Nat) :
    P (getSym (updateSym s i f) id) = P (getSym s id) := by
  by_cases h : i = id
  · subst h
    by_cases hl : i < s.syms.length
    · rw [getSym_updateSym_self _ _ _ hl, hf]
    · rw [updateSym, List.set_eq_of_length_le (by omega)]
  · rw [getSym_updateSym_ne _ _ _ _ h]

theorem StInv.status_eq {st st' : BState} (h : StInv st st') {m : Nat}
    (hm : m < st.syms.length) :
    (getSym st' m).arch_status = (getSym st m).arch_status := by
  have h2 := congrArg Symb.arch_status (h.2.2.2 m hm).1
  exact h2

theorem sbs_status_self (st : BState) (i : Nat) (s : BuildStatus)
    (h : i < st.syms.length) :
    (getSym (set_build_status st i s) i).arch_status = s := by
  have h3 : getSym (set_build_status st i s) i
      = getSym (updateSym st i (fun x => { x with arch_status := s })) i := rfl
  rw [h3, getSym_updateSym_self st i _ h]

theorem sbs_len (st : BState) (i : Nat) (s : BuildStatus) :
    (set_build_status st i s).syms.length = st.syms.length := by
  have h : (set_build_status st i s).syms.length
      = (updateSym st i (fun x => { x with arch_status := s })).syms.length := rfl
  rw [h, length_updateSym]

theorem trace_sbs (st : BState) (i : Nat) (s : BuildStatus) :
    (set_build_status st i s).arch_trace = st.arch_trace ++ [(i, s)] := rfl

theorem trace_updateSym (st : BState) (i : Nat) (f : Symb → Symb) :
    (updateSym st i f).arch_trace = st.arch_trace := rfl

theorem stack_sbs (st : BState) (i : Nat) (s : BuildStatus) :
    (set_build_status st i s).sym_stack = st.sym_stack := rfl

theorem stack_updateSym (st : BState) (i : Nat) (f : Symb → Symb) :
    (updateSym st i f).sym_stack = st.sym_stack := rfl

/-- Walking a statement list and then resolving the deferred `__all__`
symbols is a single invariant-preserving step. -/
theorem stinv_walk_resolve (env : Env) (l : StmtList) (st : BState)
    (hw : stackTop st < st.syms.length) :
    StInv st (_resolve_all_symbols (visit_node env st l)) :=
  (visit_node_inv env l st hw).trans
    (stinv_resolve_all ((visit_node_inv env l st hw).wf_next hw))

/-- C8: a `load_arch` run on a Namespace/Root/Compiled/Variable symbol does
no work and leaves the state unchanged; a run that does work, started on a
Pending file symbol with exactly one path, appends exactly the transitions
to In-Progress and then Done to the status trace, ends with the symbol's
arch status Done, and the traversed status sequence Pending, In-Progress,
Done never decreases. -/
theorem c8_status_transitions :
    (∀ (env : Env) (st : BState),
      ([SymType.NAMESPACE, .ROOT, .COMPILED, .VARIABLE].contains
        (getSym st (stackBottom st)).typ) = true →
      load_arch env st = some st) ∧
    (∀ (env : Env) (st st' : BState) (root : Nat),
      st.sym_stack = [root] → root < st.syms.length →
      ([SymType.NAMESPACE, .ROOT, .COMPILED, .VARIABLE].contains
        (getSym st root).typ) = false →
      (getSym st root).paths.length = 1 →
      (getSym st root).arch_status = .PENDING →
      load_arch env st = some st' →
      st'.arch_trace = st.arch_trace
          ++ [(root, .IN_PROGRESS), (root, .DONE)] ∧
      (getSym st' root).arch_status = .DONE ∧
      List.Chain' (fun a b => BuildStatus.idx a ≤ BuildStatus.idx b)
        [(getSym st root).arch_status, .IN_PROGRESS, .DONE]) := by
  constructor
  · intro env st hty
    rw [load_arch.eq_def]
    dsimp only
    rw [if_pos hty]
  · intro env st st' root hstack hroot hty hpaths hpend hres
    have hsb : stackBottom st = root := by
      rw [stackBottom, hstack]
      rfl
    rw [load_arch.eq_def] at hres
    dsimp only at hres
    rw [hsb] at hres
    rw [if_neg (by rw [hty]; exact Bool.false_ne_true)] at hres
    rw [if_neg (by rw [hpaths]; exact fun hx => hx rfl)] at hres
    split at hres
    · -- an ast was produced: the body is walked and __all__ resolved
      have hbig := Option.some.inj hres
      subst hbig
      refine ⟨?_, ?_, by
        rw [hpend, List.chain'_cons, List.chain'_cons]
        exact ⟨by decide, by decide, List.chain'_singleton _⟩⟩
      · rw [trace_sbs]
        dsimp only
        rw [(stinv_walk_resolve _ _ _ ?hw).2.2.1]
        case hw =>
          rw [stackTop]
          try dsimp only
          rw [stack_updateSym, stack_sbs, hstack]
          try dsimp only
          rw [length_updateSym, sbs_len]
          simpa using hroot
        dsimp only
        rw [trace_updateSym, trace_sbs]
        simp
      · apply sbs_status_self
        dsimp only
        refine lt_of_lt_of_le ?_ (stinv_walk_resolve _ _ _ ?hw2).len_le
        case hw2 =>
          rw [stackTop]
          try dsimp only
          rw [stack_updateSym, stack_sbs, hstack]
          try dsimp only
          rw [length_updateSym, sbs_len]
          simpa using hroot
        dsimp only
        rw [length_updateSym, sbs_len]
        exact hroot
    · -- no ast: only the published flag is toggled
      have hbig := Option.some.inj hres
      subst hbig
      refine ⟨?_, ?_, by
        rw [hpend, List.chain'_cons, List.chain'_cons]
        exact ⟨by decide, by decide, List.chain'_singleton _⟩⟩
      · rw [trace_sbs]
        dsimp only
        rw [trace_updateSym, trace_sbs]
        simp
      · apply sbs_status_self
        dsimp only
        rw [length_updateSym, sbs_len]
        exact hroot

theorem c8_status_transitions_witness :
    ((load_arch envA stMod).getD stMod).arch_trace
        = stMod.arch_trace ++ [(0, .IN_PROGRESS), (0, .DONE)] ∧
    (getSym ((load_arch envA stMod).getD stMod) 0).arch_status = .DONE := by
  have h := c8_status_transitions.2 envA stMod ((load_arch envA stMod).getD stMod)
    0 rfl (by decide) (by decide) (by decide) rfl rfl
  exact ⟨h.1, h.2.1⟩

theorem getSym_set_published (st : BState) (v : Bool) (id : Nat) :
    getSym { st with published := v } id = getSym st id := rfl

theorem getSym_set_afd (st : BState) (d : List Diagnostic) (id : Nat) :
    getSym { st with arch_file_diags := d } id = getSym st id := rfl

theorem sbs_children (st : BState) (i : Nat) (s : BuildStatus) (id : Nat) :
    (getSym (set_build_status st i s) id).children = (getSym st id).children := by
  have h : getSym (set_build_status st i s) id
      = getSym (updateSym st i (fun x => { x with arch_status := s })) id := rfl
  rw [h]
  exact getSym_update_proj Symb.children st i
    (fun x => { x with arch_status := s }) (fun _ => rfl) id

theorem published_sbs (st : BState) (i : Nat) (s : BuildStatus) :
    (set_build_status st i s).published = st.published := rfl

theorem getSym_inw_children (st : BState) (i : Nat) (w : Bool) (id : Nat) :
    (getSym (updateSym st i (fun x => { x with in_workspace := w })) id).children
      = (getSym st id).children :=
  getSym_update_proj Symb.children st i
    (fun x => { x with in_workspace := w }) (fun _ => rfl) id

theorem afd_sbs (st : BState) (i : Nat) (s : BuildStatus) :
    (set_build_status st i s).arch_file_diags = st.arch_file_diags := rfl

theorem diags_updateSym (st : BState) (i : Nat) (f : Symb → Symb) :
    (updateSym st i f).diagnostics = st.diagnostics := rfl

theorem diags_sbs (st : BState) (i : Nat) (s : BuildStatus) :
    (set_build_status st i s).diagnostics = st.diagnostics := rfl

theorem reb_sbs (st : BState) (i : Nat) (s : BuildStatus) :
    (set_build_status st i s).rebuild_arch_eval = st.rebuild_arch_eval := rfl

theorem reb_updateSym (st : BState) (i : Nat) (f : Symb → Symb) :
    (updateSym st i f).rebuild_arch_eval = st.rebuild_arch_eval := rfl

/-- Counterexample to C5 as stated: on a missing syntax tree the run
succeeds and publishes, but the file symbol is NOT enqueued for arch-eval —
`rebuild_arch_eval` stays empty. -/
theorem c5_counterexample :
    ∃ st', load_arch envA stMod = some st' ∧
      st'.published = true ∧ st'.rebuild_arch_eval = [] :=
  ⟨_, rfl, rfl, rfl⟩

/-- C5 amended: when the file manager yields no syntax tree, `load_arch`
succeeds, the file symbol keeps its children and the store its size, the
pending diagnostics are published, the symbol is NOT enqueued for arch-eval
(`rebuild_arch_eval` is unchanged), and the Arch status ends Done. -/
theorem c5_missing_ast (env : Env) (st st' : BState) (root : Nat)
    (hstack : st.sym_stack = [root]) (hroot : root < st.syms.length)
    (hty : ([SymType.NAMESPACE, .ROOT, .COMPILED, .VARIABLE].contains
      (getSym st root).typ) = false)
    (hpaths : (getSym st root).paths.length = 1)
    (hfile : ∀ p, (env.update_file_info p).ast = none)
    (hres : load_arch env st = some st') :
    st'.published = true ∧
    st'.arch_file_diags = st.diagnostics ∧
    st'.rebuild_arch_eval = st.rebuild_arch_eval ∧
    (getSym st' root).children = (getSym st root).children ∧
    st'.syms.length = st.syms.length ∧
    (getSym st' root).arch_status = .DONE := by
  have hsb : stackBottom st = root := by
    rw [stackBottom, hstack]
    rfl
  rw [load_arch.eq_def] at hres
  dsimp only at hres
  rw [hsb] at hres
  rw [if_neg (by rw [hty]; exact Bool.false_ne_true)] at hres
  rw [if_neg (by rw [hpaths]; exact fun hx => hx rfl)] at hres
  split at hres
  · next _ heq =>
    rw [hfile] at heq
    cases heq
  · have hbig := Option.some.inj hres
    subst hbig
    refine ⟨rfl, rfl, rfl, ?_, ?_, ?_⟩
    · rw [sbs_children, getSym_eq]
      dsimp only
      rw [← getSym_eq, getSym_inw_children, sbs_children]
    · rw [sbs_len]
      dsimp only
      rw [length_updateSym, sbs_len]
    · apply sbs_status_self
      dsimp only
      rw [length_updateSym, sbs_len]
      exact hroot

theorem c5_missing_ast_witness :
    ((load_arch envA stMod).getD stMod).published = true ∧
    ((load_arch envA stMod).getD stMod).arch_file_diags = stMod.diagnostics ∧
    ((load_arch envA stMod).getD stMod).rebuild_arch_eval
        = stMod.rebuild_arch_eval ∧
    (getSym ((load_arch envA stMod).getD stMod) 0).children
        = (getSym stMod 0).children ∧
    ((load_arch envA stMod).getD stMod).syms.length = stMod.syms.length ∧
    (getSym ((load_arch envA stMod).getD stMod) 0).arch_status = .DONE :=
  c5_missing_ast envA stMod _ 0 rfl (by decide) (by decide) (by decide)
    (fun _ => rfl) rfl

theorem getSym_addvar_top (st : BState) (p : Nat) (n : String) (rg : TextRange)
    (hp : p < st.syms.length) :
    getSym (add_new_variable st p n rg).1 p
      = withChild (getSym st p) st.syms.length := by
  rw [add_new_variable_eq st p n rg hp, getSym_withSyms,
    List.getElem?_append_left (by simp [hp]),
    List.getElem?_set_self (by simpa using hp)]
  rfl

theorem getSym_addvar_new (st : BState) (p : Nat) (n : String) (rg : TextRange)
    (hp : p < st.syms.length) :
    getSym (add_new_variable st p n rg).1 st.syms.length
      = freshVar st p n rg := by
  rw [add_new_variable_eq st p n rg hp, getSym_withSyms,
    List.getElem?_append_right (by simp), List.length_set]
  simp

theorem getSym_addvar_other (st : BState) (p : Nat) (n : String)
    (rg : TextRange) (hp : p < st.syms.length) (m : Nat)
    (hm : m < st.syms.length) (hmp : m ≠ p) :
    getSym (add_new_variable st p n rg).1 m = getSym st m := by
  rw [add_new_variable_eq st p n rg hp, getSym_withSyms,
    List.getElem?_append_left (by simp [hm]),
    @List.getElem?_set_ne _ _ p m (fun hx => hmp hx.symm) _, ← getSym_eq]

theorem stack_addvar (st : BState) (p : Nat) (n : String) (rg : TextRange) :
    (add_new_variable st p n rg).1.sym_stack = st.sym_stack := rfl

theorem getSym_set_diags (st : BState) (d : List Diagnostic) (id : Nat) :
    getSym { st with diagnostics := d } id = getSym st id := rfl

theorem getSym_set_all (st : BState) (l : List (String × TextRange))
    (id : Nat) :
    getSym { st with __all_symbols_to_add := l } id = getSym st id := rfl

theorem StInv.name_eq {st st' : BState} (h : StInv st st') {m : Nat}
    (hm : m < st.syms.length) :
    (getSym st' m).name = (getSym st m).name := by
  have h2 := congrArg Symb.name (h.2.2.2 m hm).1
  exact h2

theorem StInv.typ_eq {st st' : BState} (h : StInv st st') {m : Nat}
    (hm : m < st.syms.length) :
    (getSym st' m).typ = (getSym st m).typ := by
  have h2 := congrArg Symb.typ (h.2.2.2 m hm).1
  exact h2

theorem StInv.range_eq {st st' : BState} (h : StInv st st') {m : Nat}
    (hm : m < st.syms.length) :
    (getSym st' m).range = (getSym st m).range := by
  have h2 := congrArg Symb.range (h.2.2.2 m hm).1
  exact h2

theorem StInv.parent_eq {st st' : BState} (h : StInv st st') {m : Nat}
    (hm : m < st.syms.length) :
    (getSym st' m).parent = (getSym st m).parent := by
  have h2 := congrArg Symb.parent (h.2.2.2 m hm).1
  exact h2

/-- Creating a variable with a different name keeps an empty binding set
empty (the old children keep their names, the new child has another name). -/
theorem gcs_addvar_empty (st : BState) (n n' : String) (rg : TextRange)
    (hp : stackTop st < st.syms.length)
    (hwf : ∀ m ∈ (getSym st (stackTop st)).children, m < st.syms.length)
    (hne : n' ≠ n)
    (he : get_content_symbol st (stackTop st) n' = []) :
    get_content_symbol (add_new_variable st (stackTop st) n rg).1
      (stackTop st) n' = [] := by
  simp only [get_content_symbol] at he ⊢
  rw [getSym_addvar_top st (stackTop st) n rg hp]
  rw [List.filter_eq_nil_iff]
  intro m hm
  simp only [withChild] at hm
  rcases List.mem_append.mp hm with hmo | hml
  · have hmlen := hwf m hmo
    have hname : (getSym (add_new_variable st (stackTop st) n rg).1 m).name
        = (getSym st m).name := by
      by_cases hmp : m = stackTop st
      · rw [hmp, getSym_addvar_top st (stackTop st) n rg hp]
        rfl
      · rw [getSym_addvar_other st (stackTop st) n rg hp m hmlen hmp]
    simp only [hname]
    have h0 := List.filter_eq_nil_iff.mp he m hmo
    simpa using h0
  · have hmeq : m = st.syms.length := by simpa using hml
    subst hmeq
    rw [getSym_addvar_new st (stackTop st) n rg hp]
    simp only [freshVar, decide_eq_true_eq]
    exact fun hx => hne hx.symm

/-- Full effect of the synthetic-exports materialization fold: every listed
name ends bound under the container, and every listed name that was unbound
gets a fresh placeholder Variable carrying a recorded name and range. -/
theorem resolve_fold_spec (L : List (String × TextRange)) :
    ∀ (st : BState), stackTop st < st.syms.length →
    (∀ m ∈ (getSym st (stackTop st)).children, m < st.syms.length) →
    (∀ p ∈ L, ∃ m, m ∈ (getSym (resolve_fold st L) (stackTop st)).children ∧
        m < (resolve_fold st L).syms.length ∧
        (getSym (resolve_fold st L) m).name = p.1) ∧
    (∀ p ∈ L, get_content_symbol st (stackTop st) p.1 = [] →
      ∃ vid rg, st.syms.length ≤ vid ∧ (p.1, rg) ∈ L ∧
        (getSym (resolve_fold st L) vid).typ = .VARIABLE ∧
        (getSym (resolve_fold st L) vid).name = p.1 ∧
        (getSym (resolve_fold st L) vid).range = rg ∧
        (getSym (resolve_fold st L) vid).parent = some (stackTop st)) := by
  induction L with
  | nil =>
    intro st hw hwf
    refine ⟨fun p hp => absurd hp (List.not_mem_nil p),
            fun p hp _ => absurd hp (List.not_mem_nil p)⟩
  | cons q rest ih =>
    intro st hw hwf
    rw [resolve_fold]
    by_cases hc : (get_content_symbol st (stackTop st) q.1).isEmpty = true
    · rw [if_pos hc]
      have hgt : getSym (add_new_variable st (stackTop st) q.1 q.2).1
          (stackTop st) = withChild (getSym st (stackTop st)) st.syms.length :=
        getSym_addvar_top st (stackTop st) q.1 q.2 hw
      have hgn : getSym (add_new_variable st (stackTop st) q.1 q.2).1
          st.syms.length = freshVar st (stackTop st) q.1 q.2 :=
        getSym_addvar_new st (stackTop st) q.1 q.2 hw
      have hstt : stackTop (add_new_variable st (stackTop st) q.1 q.2).1
          = stackTop st := by
        rw [stackTop, stackTop, stack_addvar]
      have hlen1 : (add_new_variable st (stackTop st) q.1 q.2).1.syms.length
          = st.syms.length + 1 := len_addvar st (stackTop st) q.1 q.2
      have hw1 : stackTop (add_new_variable st (stackTop st) q.1 q.2).1
          < (add_new_variable st (stackTop st) q.1 q.2).1.syms.length := by
        rw [hstt, hlen1]
        omega
      have hwf1 : ∀ m ∈ (getSym (add_new_variable st (stackTop st) q.1 q.2).1
          (stackTop (add_new_variable st (stackTop st) q.1 q.2).1)).children,
          m < (add_new_variable st (stackTop st) q.1 q.2).1.syms.length := by
        rw [hstt, hgt, hlen1]
        intro m hm
        simp only [withChild] at hm
        rcases List.mem_append.mp hm with h1 | h2
        · exact lt_trans (hwf m h1) (by omega)
        · have h3 : m = st.syms.length := by simpa using h2
          omega
      obtain ⟨ihB, ihC⟩ := ih _ hw1 hwf1
      rw [hstt] at ihB ihC
      have hinv : StInv (add_new_variable st (stackTop st) q.1 q.2).1
          (resolve_fold (add_new_variable st (stackTop st) q.1 q.2).1 rest) :=
        stinv_resolve_fold hw1 rest (StInv.refl _)
      have hltop : stackTop st
          < (add_new_variable st (stackTop st) q.1 q.2).1.syms.length := by
        rw [hlen1]
        omega
      have hlnew : st.syms.length
          < (add_new_variable st (stackTop st) q.1 q.2).1.syms.length := by
        rw [hlen1]
        omega
      constructor
      · intro p hp
        rcases List.mem_cons.mp hp with rfl | hpr
        · refine ⟨st.syms.length, ?_, ?_, ?_⟩
          · obtain ⟨t, hch, _⟩ := (hinv.2.2.2 (stackTop st) hltop).2
            rw [hch, hgt]
            simp [withChild]
          · exact lt_of_lt_of_le hlnew hinv.len_le
          · rw [hinv.name_eq hlnew, hgn]
            rfl
        · exact ihB p hpr
      · intro p hp hemp
        rcases List.mem_cons.mp hp with rfl | hpr
        · refine ⟨st.syms.length, p.2, le_refl _, ?_, ?_, ?_, ?_, ?_⟩
          · exact List.mem_cons_self _ _
          · rw [hinv.typ_eq hlnew, hgn]
            rfl
          · rw [hinv.name_eq hlnew, hgn]
            rfl
          · rw [hinv.range_eq hlnew, hgn]
            rfl
          · rw [hinv.parent_eq hlnew, hgn]
            rfl
        · by_cases hsame : p.1 = q.1
          · refine ⟨st.syms.length, q.2, le_refl _, ?_, ?_, ?_, ?_, ?_⟩
            · rw [hsame]
              exact List.mem_cons_self _ _
            · rw [hinv.typ_eq hlnew, hgn]
              rfl
            · rw [hinv.name_eq hlnew, hgn, hsame]
              rfl
            · rw [hinv.range_eq hlnew, hgn]
              rfl
            · rw [hinv.parent_eq hlnew, hgn]
              rfl
          · have hemp1 : get_content_symbol
                (add_new_variable st (stackTop st) q.1 q.2).1
                (stackTop st) p.1 = [] :=
              gcs_addvar_empty st q.1 p.1 q.2 hw hwf hsame hemp
            obtain ⟨vid, rg, hv1, hv2, hv3, hv4, hv5, hv6⟩ := ihC p hpr hemp1
            refine ⟨vid, rg, ?_, List.mem_cons_of_mem _ hv2, hv3, hv4, hv5, hv6⟩
            rw [hlen1] at hv1
            omega
    · rw [if_neg hc]
      obtain ⟨ihB, ihC⟩ := ih st hw hwf
      have hinv : StInv st (resolve_fold st rest) :=
        stinv_resolve_fold hw rest (StInv.refl st)
      constructor
      · intro p hp
        rcases List.mem_cons.mp hp with rfl | hpr
        · have hne : get_content_symbol st (stackTop st) p.1 ≠ [] := by
            intro h0
            rw [h0] at hc
            exact hc rfl
          obtain ⟨m, hm⟩ := List.exists_mem_of_ne_nil _ hne
          simp only [get_content_symbol, List.mem_filter] at hm
          have hmlen := hwf m hm.1
          refine ⟨m, ?_, ?_, ?_⟩
          · obtain ⟨t, hch, _⟩ := (hinv.2.2.2 (stackTop st) hw).2
            rw [hch]
            exact List.mem_append_left _ hm.1
          · exact lt_of_lt_of_le hmlen hinv.len_le
          · rw [hinv.name_eq hmlen]
            exact of_decide_eq_true hm.2
        · exact ihB p hpr
      · intro p hp hemp
        rcases List.mem_cons.mp hp with rfl | hpr
        · exfalso
          rw [hemp] at hc
          exact hc rfl
        · obtain ⟨vid, rg, hv1, hv2, hv3, hv4, hv5, hv6⟩ := ihC p hpr hemp
          exact ⟨vid, rg, hv1, List.mem_cons_of_mem _ hv2, hv3, hv4, hv5, hv6⟩

theorem stackTop_set_diags (st : BState) (d : List Diagnostic) :
    stackTop { st with diagnostics := d } = stackTop st := rfl

theorem stackTop_updateSym (st : BState) (i : Nat) (f : Symb → Symb) :
    stackTop (updateSym st i f) = stackTop st := rfl

theorem stackTop_addvar (st : BState) (p : Nat) (n : String) (rg : TextRange) :
    stackTop (add_new_variable st p n rg).1 = stackTop st := rfl

theorem getSym_set_diag_all (st : BState) (d : List Diagnostic)
    (a : List (String × TextRange)) (id : Nat) :
    getSym { st with diagnostics := d, __all_symbols_to_add := a } id
      = getSym st id := rfl

/-- One `__all__` assignment step in the empty-evaluation case: the value is
still eagerly evaluated and stored, but nothing is recorded for
materialization. -/
theorem assign_step_all_empty (env : Env) (range : TextRange) (st : BState)
    (v : PExpr) (tr : TextRange)
    (hw : stackTop st < st.syms.length)
    (hemp : (env.eval_from_ast v (stackTop st) range.start).1.isEmpty = true) :
    assign_step env range st ⟨"__all__", tr, some v⟩
      = { updateSym (add_new_variable st (stackTop st) "__all__" tr).1
            st.syms.length
            (fun s => { s with evaluations :=
              (env.eval_from_ast v (stackTop st) range.start).1 }) with
          diagnostics := st.diagnostics
            ++ (env.eval_from_ast v (stackTop st) range.start).2 } := by
  have hlt : st.syms.length
      < (add_new_variable st (stackTop st) "__all__" tr).1.syms.length := by
    rw [len_addvar]
    omega
  rw [assign_step.eq_def]
  dsimp only
  have hvid : (add_new_variable st (stackTop st) "__all__" tr).2
      = st.syms.length := rfl
  rw [hvid, getSym_addvar_new st (stackTop st) "__all__" tr hw]
  try dsimp only [freshVar]
  rw [if_pos rfl]
  try dsimp only
  rw [getSym_set_diags, getSym_updateSym_self _ _ _ hlt,
    getSym_addvar_new st (stackTop st) "__all__" tr hw]
  try dsimp only [freshVar]
  rw [if_pos hemp]
  try rfl

theorem stackTop_def (st : BState) :
    stackTop st = st.sym_stack.getLastD 0 := rfl

/-- One `__all__` assignment step in the external list case: the value is
eagerly evaluated, stored on the new variable, and the string literals of
the list are recorded together with the evaluation's range. -/
theorem assign_step_all_ext (env : Env) (range : TextRange) (st : BState)
    (v : PExpr) (tr : TextRange) (l : List PExpr)
    (hw : stackTop st < st.syms.length)
    (hne : (env.eval_from_ast v (stackTop st) range.start).1.isEmpty = false)
    (hext : (getSym st (stackTop st)).is_external = true)
    (hl : ((env.eval_from_ast v (stackTop st) range.start).1.headD
        default).value = some (.LIST l)) :
    assign_step env range st ⟨"__all__", tr, some v⟩
      = { updateSym (add_new_variable st (stackTop st) "__all__" tr).1
            st.syms.length
            (fun s => { s with evaluations :=
              (env.eval_from_ast v (stackTop st) range.start).1 }) with
          diagnostics := st.diagnostics
            ++ (env.eval_from_ast v (stackTop st) range.start).2,
          __all_symbols_to_add := st.__all_symbols_to_add
            ++ l.filterMap (fun item => match item with
              | .stringLiteral s => some (s,
                  ((env.eval_from_ast v (stackTop st) range.start).1.headD
                    default).range.getD {})
              | _ => none) } := by
  have hlt : st.syms.length
      < (add_new_variable st (stackTop st) "__all__" tr).1.syms.length := by
    rw [len_addvar]
    omega
  have hne2 : st.syms.length ≠ stackTop st := by
    omega
  rw [assign_step.eq_def]
  dsimp only
  have hvid : (add_new_variable st (stackTop st) "__all__" tr).2
      = st.syms.length := rfl
  rw [hvid, getSym_addvar_new st (stackTop st) "__all__" tr hw]
  try dsimp only [freshVar]
  rw [if_pos rfl]
  try dsimp only
  rw [getSym_set_diags, getSym_updateSym_self _ _ _ hlt,
    getSym_addvar_new st (stackTop st) "__all__" tr hw]
  try dsimp only [freshVar]
  rw [if_neg (by rw [hne]; exact Bool.false_ne_true)]
  rw [getSym_set_diags]
  dsimp only [stackTop]
  rw [stack_updateSym, stack_addvar]
  rw [← stackTop_def]
  rw [getSym_updateSym_ne _ _ _ _ hne2,
    getSym_addvar_top st (stackTop st) "__all__" tr hw]
  try dsimp only [withChild]
  rw [if_pos hext]
  try dsimp only
  rw [hl]
  try rfl

/-- One `__all__` assignment step when the container is not external: the
value is still eagerly evaluated and stored, but nothing is recorded. -/
theorem assign_step_all_nonext (env : Env) (range : TextRange) (st : BState)
    (v : PExpr) (tr : TextRange)
    (hw : stackTop st < st.syms.length)
    (hne : (env.eval_from_ast v (stackTop st) range.start).1.isEmpty = false)
    (hnext : (getSym st (stackTop st)).is_external = false) :
    assign_step env range st ⟨"__all__", tr, some v⟩
      = { updateSym (add_new_variable st (stackTop st) "__all__" tr).1
            st.syms.length
            (fun s => { s with evaluations :=
              (env.eval_from_ast v (stackTop st) range.start).1 }) with
          diagnostics := st.diagnostics
            ++ (env.eval_from_ast v (stackTop st) range.start).2 } := by
  have hlt : st.syms.length
      < (add_new_variable st (stackTop st) "__all__" tr).1.syms.length := by
    rw [len_addvar]
    omega
  have hne2 : st.syms.length ≠ stackTop st := by
    omega
  rw [assign_step.eq_def]
  dsimp only
  have hvid : (add_new_variable st (stackTop st) "__all__" tr).2
      = st.syms.length := rfl
  rw [hvid, getSym_addvar_new st (stackTop st) "__all__" tr hw]
  try dsimp only [freshVar]
  rw [if_pos rfl]
  try dsimp only
  rw [getSym_set_diags, getSym_updateSym_self _ _ _ hlt,
    getSym_addvar_new st (stackTop st) "__all__" tr hw]
  try dsimp only [freshVar]
  rw [if_neg (by rw [hne]; exact Bool.false_ne_true)]
  rw [getSym_set_diags]
  dsimp only [stackTop]
  rw [stack_updateSym, stack_addvar]
  rw [← stackTop_def]
  rw [getSym_updateSym_ne _ _ _ _ hne2,
    getSym_addvar_top st (stackTop st) "__all__" tr hw]
  try dsimp only [withChild]
  rw [if_neg (by rw [hnext]; exact Bool.false_ne_true)]
  try rfl

/-- One `__all__` assignment step when the container is external but the
first evaluation does not hold a List: the value is still eagerly evaluated
and stored, but nothing is recorded. -/
theorem assign_step_all_nolist (env : Env) (range : TextRange) (st : BState)
    (v : PExpr) (tr : TextRange)
    (hw : stackTop st < st.syms.length)
    (hne : (env.eval_from_ast v (stackTop st) range.start).1.isEmpty = false)
    (hext : (getSym st (stackTop st)).is_external = true)
    (hnol : ∀ l : List PExpr,
      ((env.eval_from_ast v (stackTop st) range.start).1.headD
        default).value ≠ some (.LIST l)) :
    assign_step env range st ⟨"__all__", tr, some v⟩
      = { updateSym (add_new_variable st (stackTop st) "__all__" tr).1
            st.syms.length
            (fun s => { s with evaluations :=
              (env.eval_from_ast v (stackTop st) range.start).1 }) with
          diagnostics := st.diagnostics
            ++ (env.eval_from_ast v (stackTop st) range.start).2 } := by
  have hlt : st.syms.length
      < (add_new_variable st (stackTop st) "__all__" tr).1.syms.length := by
    rw [len_addvar]
    omega
  have hne2 : st.syms.length ≠ stackTop st := by
    omega
  rw [assign_step.eq_def]
  dsimp only
  have hvid : (add_new_variable st (stackTop st) "__all__" tr).2
      = st.syms.length := rfl
  rw [hvid, getSym_addvar_new st (stackTop st) "__all__" tr hw]
  try dsimp only [freshVar]
  rw [if_pos rfl]
  try dsimp only
  rw [getSym_set_diags, getSym_updateSym_self _ _ _ hlt,
    getSym_addvar_new st (stackTop st) "__all__" tr hw]
  try dsimp only [freshVar]
  rw [if_neg (by rw [hne]; exact Bool.false_ne_true)]
  rw [getSym_set_diags]
  dsimp only [stackTop]
  rw [stack_updateSym, stack_addvar]
  rw [← stackTop_def]
  rw [getSym_updateSym_ne _ _ _ _ hne2,
    getSym_addvar_top st (stackTop st) "__all__" tr hw]
  try dsimp only [withChild]
  rw [if_pos hext]
  try dsimp only
  split
  · next l heq => exact absurd heq (hnol l)
  · rfl

/-- One `__all__` assignment step, all regimes at once: the value is always
eagerly evaluated, its evaluations stored on the created variable and its
diagnostics appended; the recording only ever appends to the list of
synthetic export names. -/
theorem assign_step_all_cases (env : Env) (range : TextRange) (st : BState)
    (v : PExpr) (tr : TextRange)
    (hw : stackTop st < st.syms.length) :
    ∃ a : List (String × TextRange),
      assign_step env range st ⟨"__all__", tr, some v⟩
        = { updateSym (add_new_variable st (stackTop st) "__all__" tr).1
              st.syms.length
              (fun s => { s with evaluations :=
                (env.eval_from_ast v (stackTop st) range.start).1 }) with
            diagnostics := st.diagnostics
              ++ (env.eval_from_ast v (stackTop st) range.start).2,
            __all_symbols_to_add := st.__all_symbols_to_add ++ a } := by
  have hlt : st.syms.length
      < (add_new_variable st (stackTop st) "__all__" tr).1.syms.length := by
    rw [len_addvar]
    omega
  rw [assign_step.eq_def]
  dsimp only
  have hvid : (add_new_variable st (stackTop st) "__all__" tr).2
      = st.syms.length := rfl
  rw [hvid, getSym_addvar_new st (stackTop st) "__all__" tr hw]
  try dsimp only [freshVar]
  rw [if_pos rfl]
  try dsimp only
  rw [getSym_set_diags, getSym_updateSym_self _ _ _ hlt,
    getSym_addvar_new st (stackTop st) "__all__" tr hw]
  try dsimp only [freshVar]
  split
  · refine ⟨[], ?_⟩
    rw [List.append_nil]
    rfl
  · split
    · split
      · next l heq => exact ⟨_, rfl⟩
      · refine ⟨[], ?_⟩
        rw [List.append_nil]
        rfl
    · refine ⟨[], ?_⟩
      rw [List.append_nil]
      rfl

/-- An evaluation holding a list of two string literals. -/
def evalListAB : Evaluation :=
  { symbol := none,
    value := some (.LIST [.stringLiteral "a", .stringLiteral "b"]),
    range := some {} }

/-- An environment whose evaluator always yields that list evaluation. -/
def envC : Env where
  resolve_import_stmt := fun _ _ _ _ =>
    { found := false, symbol := 0, file_tree := ([], []), range := {} }
  eval_from_ast := fun _ _ _ => ([evalListAB], [])
  file_of := fun _ => none
  is_in_workspace := fun _ => false
  update_file_info := fun _ => { ast := none }
  init_path := fun p => p

/-- An external module state. -/
def stExt : BState where
  syms := [{ typ := .FILE, name := "mod", paths := ["m.py"],
             is_external := true }]
  sym_stack := [0]

/-- Counterexample to C4 as stated: an ANNOTATED `__all__` assignment with a
value in an external module is not eagerly evaluated — the created variable
gets no evaluations and nothing is recorded for materialization, although
the evaluator would have returned a list of string literals. -/
theorem c4_counterexample :
    (envC.eval_from_ast .other 0 0).1.length = 1 ∧
    (getSym (visit_node envC stExt
      (.cons (.annAssign (.name "__all__" {}) .other (some .other) {}) .nil))
      1).name = "__all__" ∧
    (getSym (visit_node envC stExt
      (.cons (.annAssign (.name "__all__" {}) .other (some .other) {}) .nil))
      1).evaluations = [] ∧
    (visit_node envC stExt
      (.cons (.annAssign (.name "__all__" {}) .other (some .other) {})
        .nil)).__all_symbols_to_add = [] :=
  ⟨rfl, rfl, rfl, rfl⟩

/-- C4 amended: the `__all__` special case belongs to plain (unannotated)
assignments only.  For every plain assignment to the single target
`__all__` with a value, the value is eagerly evaluated and the evaluations
are stored on the created Variable, its diagnostics are appended and
exactly one symbol is created; names are recorded for materialization
exactly when the container is external and the first evaluation holds a
List, namely its string literals with the evaluation's range; and after
the walk `_resolve_all_symbols` leaves every recorded name bound, creating
a placeholder Variable with a recorded name and range for each name the
container did not bind. -/
theorem c4_all_exports :
    (∀ (env : Env) (st : BState) (v : PExpr) (tr range : TextRange),
      stackTop st < st.syms.length →
      (getSym (_visit_assign env st [.name "__all__" tr] v range)
          st.syms.length).typ = .VARIABLE ∧
      (getSym (_visit_assign env st [.name "__all__" tr] v range)
          st.syms.length).name = "__all__" ∧
      (getSym (_visit_assign env st [.name "__all__" tr] v range)
          st.syms.length).range = tr ∧
      (getSym (_visit_assign env st [.name "__all__" tr] v range)
          st.syms.length).parent = some (stackTop st) ∧
      (getSym (_visit_assign env st [.name "__all__" tr] v range)
          st.syms.length).evaluations
        = (env.eval_from_ast v (stackTop st) range.start).1 ∧
      (_visit_assign env st [.name "__all__" tr] v range).diagnostics
        = st.diagnostics ++ (env.eval_from_ast v (stackTop st) range.start).2 ∧
      (_visit_assign env st [.name "__all__" tr] v range).syms.length
        = st.syms.length + 1) ∧
    (∀ (env : Env) (st : BState) (v : PExpr) (tr range : TextRange),
      stackTop st < st.syms.length →
      ((env.eval_from_ast v (stackTop st) range.start).1.isEmpty = true →
        (_visit_assign env st
          [.name "__all__" tr] v range).__all_symbols_to_add
          = st.__all_symbols_to_add) ∧
      ((getSym st (stackTop st)).is_external = false →
        (env.eval_from_ast v (stackTop st) range.start).1.isEmpty = false →
        (_visit_assign env st
          [.name "__all__" tr] v range).__all_symbols_to_add
          = st.__all_symbols_to_add) ∧
      ((getSym st (stackTop st)).is_external = true →
        (env.eval_from_ast v (stackTop st) range.start).1.isEmpty = false →
        (∀ l : List PExpr,
          ((env.eval_from_ast v (stackTop st) range.start).1.headD
            default).value ≠ some (.LIST l)) →
        (_visit_assign env st
          [.name "__all__" tr] v range).__all_symbols_to_add
          = st.__all_symbols_to_add) ∧
      (∀ l : List PExpr,
        (getSym st (stackTop st)).is_external = true →
        (env.eval_from_ast v (stackTop st) range.start).1.isEmpty = false →
        ((env.eval_from_ast v (stackTop st) range.start).1.headD
            default).value = some (.LIST l) →
        (_visit_assign env st
          [.name "__all__" tr] v range).__all_symbols_to_add
          = st.__all_symbols_to_add ++ l.filterMap (fun item =>
              match item with
              | .stringLiteral s => some (s,
                  ((env.eval_from_ast v (stackTop st) range.start).1.headD
                    default).range.getD {})
              | _ => none))) ∧
    (∀ st : BState, stackTop st < st.syms.length →
      (∀ m ∈ (getSym st (stackTop st)).children, m < st.syms.length) →
      (∀ p ∈ st.__all_symbols_to_add,
        get_content_symbol (_resolve_all_symbols st) (stackTop st) p.1 ≠ []) ∧
      (∀ p ∈ st.__all_symbols_to_add,
        get_content_symbol st (stackTop st) p.1 = [] →
        ∃ vid rg, st.syms.length ≤ vid ∧
          (p.1, rg) ∈ st.__all_symbols_to_add ∧
          (getSym (_resolve_all_symbols st) vid).typ = .VARIABLE ∧
          (getSym (_resolve_all_symbols st) vid).name = p.1 ∧
          (getSym (_resolve_all_symbols st) vid).range = rg ∧
          (getSym (_resolve_all_symbols st) vid).parent
            = some (stackTop st))) := by
  refine ⟨?_, ?_, ?_⟩
  · intro env st v tr range hw
    have hlt : st.syms.length
        < (add_new_variable st (stackTop st) "__all__" tr).1.syms.length := by
      rw [len_addvar]
      omega
    obtain ⟨a, hstep⟩ := assign_step_all_cases env range st v tr hw
    rw [show _visit_assign env st [Target.name "__all__" tr] v range
        = assign_step env range st ⟨"__all__", tr, some v⟩ from rfl]
    rw [hstep]
    rw [getSym_set_diag_all, getSym_updateSym_self _ _ _ hlt,
      getSym_addvar_new st (stackTop st) "__all__" tr hw]
    try dsimp only [freshVar]
    refine ⟨rfl, rfl, rfl, rfl, rfl, rfl, ?_⟩
    rw [length_updateSym, len_addvar]
  · intro env st v tr range hw
    refine ⟨?_, ?_, ?_, ?_⟩
    · intro hemp
      rw [show _visit_assign env st [Target.name "__all__" tr] v range
          = assign_step env range st ⟨"__all__", tr, some v⟩ from rfl]
      rw [assign_step_all_empty env range st v tr hw hemp]
      rfl
    · intro hnext hne
      rw [show _visit_assign env st [Target.name "__all__" tr] v range
          = assign_step env range st ⟨"__all__", tr, some v⟩ from rfl]
      rw [assign_step_all_nonext env range st v tr hw hne hnext]
      rfl
    · intro hext hne hnol
      rw [show _visit_assign env st [Target.name "__all__" tr] v range
          = assign_step env range st ⟨"__all__", tr, some v⟩ from rfl]
      rw [assign_step_all_nolist env range st v tr hw hne hext hnol]
      rfl
    · intro l hext hne hl
      rw [show _visit_assign env st [Target.name "__all__" tr] v range
          = assign_step env range st ⟨"__all__", tr, some v⟩ from rfl]
      rw [assign_step_all_ext env range st v tr l hw hne hext hl]
  · intro st hw hwf
    obtain ⟨hB, hC⟩ := resolve_fold_spec st.__all_symbols_to_add
      { st with __all_symbols_to_add := [] } hw hwf
    constructor
    · intro p hp h0
      obtain ⟨m, h1, h2, h3⟩ := hB p hp
      have hmem : m ∈ get_content_symbol (_resolve_all_symbols st)
          (stackTop st) p.1 :=
        List.mem_filter.mpr ⟨h1, by simpa using h3⟩
      rw [h0] at hmem
      exact List.not_mem_nil m hmem
    · intro p hp hemp
      obtain ⟨vid, rg, hv1, hv2, hv3, hv4, hv5, hv6⟩ := hC p hp hemp
      exact ⟨vid, rg, hv1, hv2, hv3, hv4, hv5, hv6⟩

theorem c4_all_exports_witness :
    (getSym (_visit_assign envC stExt [.name "__all__" {}] .other {})
        1).name = "__all__" ∧
    (getSym (_visit_assign envC stExt [.name "__all__" {}] .other {})
        1).evaluations = [evalListAB] ∧
    (_visit_assign envC stExt [.name "__all__" {}] .other {}).syms.length
      = 2 ∧
    (_visit_assign envC stExt
        [.name "__all__" {}] .other {}).__all_symbols_to_add
      = [("a", ({} : TextRange)), ("b", ({} : TextRange))] ∧
    get_content_symbol
      (_resolve_all_symbols (_visit_assign envC stExt
        [.name "__all__" {}] .other {}))
      (stackTop (_visit_assign envC stExt [.name "__all__" {}] .other {}))
      "a" ≠ [] := by
  have hA := c4_all_exports.1 envC stExt .other {} {} (by decide)
  have hB := (c4_all_exports.2.1 envC stExt .other {} {} (by decide)).2.2.2
    [.stringLiteral "a", .stringLiteral "b"] rfl rfl rfl
  have hC := c4_all_exports.2.2
    (_visit_assign envC stExt [.name "__all__" {}] .other {})
    (by decide) (by decide)
  refine ⟨hA.2.1, hA.2.2.2.2.1, hA.2.2.2.2.2.2.trans rfl, hB.trans rfl, ?_⟩
  exact hC.1 ("a", {}) (by decide)

/-- The record a wildcard import binding creates: a Variable under `top`,
marked as import variable, whose evaluations weakly reference the target
bindings. -/
def wildcardVar (top : Nat) (ext : Bool) (name : String) (range : TextRange)
    (secs : List Nat) : Symb :=
  { typ := .VARIABLE, name := name, range := range, parent := some top,
    is_external := ext, is_import_variable := true,
    evaluations := Evaluation.from_sections secs }

/-- The state after one wildcard binding step. -/
def wb_state (st : BState) (p : String × List Nat) (range : TextRange) :
    BState :=
  updateSym (add_new_variable st (stackTop st) p.1 range).1
    (add_new_variable st (stackTop st) p.1 range).2
    (fun s => { s with
      is_import_variable := true,
      evaluations := Evaluation.from_sections p.2 })

theorem wildcard_bind_cons (st : BState) (range : TextRange) (allowed : Bool)
    (nf : List String) (p : String × List Nat)
    (rest : List (String × List Nat)) :
    wildcard_bind st range allowed nf (p :: rest)
      = if allowed || nf.contains p.1 then
          ((wildcard_bind (wb_state st p range) range allowed nf rest).1,
           st.syms.length
             :: (wildcard_bind (wb_state st p range) range allowed nf rest).2)
        else wildcard_bind st range allowed nf rest := by
  by_cases hk : (allowed || nf.contains p.1) = true
  · rw [wildcard_bind, if_pos hk, if_pos hk]
    rfl
  · rw [wildcard_bind, if_neg hk, if_neg hk]

theorem wb_state_facts (st : BState) (p : String × List Nat)
    (range : TextRange) (hw : stackTop st < st.syms.length) :
    (wb_state st p range).syms.length = st.syms.length + 1 ∧
    stackTop (wb_state st p range) = stackTop st ∧
    getSym (wb_state st p range) st.syms.length
      = wildcardVar (stackTop st) ((getSym st (stackTop st)).is_external)
          p.1 range p.2 ∧
    (∀ m, m ≠ stackTop st → m < st.syms.length →
      getSym (wb_state st p range) m = getSym st m) ∧
    (getSym (wb_state st p range) (stackTop st)).is_external
      = (getSym st (stackTop st)).is_external := by
  have hvid : (add_new_variable st (stackTop st) p.1 range).2
      = st.syms.length := rfl
  have hlt : st.syms.length
      < (add_new_variable st (stackTop st) p.1 range).1.syms.length := by
    rw [len_addvar]
    omega
  refine ⟨?_, rfl, ?_, ?_, ?_⟩
  · unfold wb_state
    rw [length_updateSym, len_addvar]
  · unfold wb_state
    rw [hvid, getSym_updateSym_self _ _ _ hlt,
      getSym_addvar_new st (stackTop st) p.1 range hw]
    rfl
  · intro m hm1 hm2
    unfold wb_state
    rw [hvid, getSym_updateSym_ne _ _ _ _ (by omega : st.syms.length ≠ m),
      getSym_addvar_other st (stackTop st) p.1 range hw m hm2 hm1]
  · unfold wb_state
    rw [hvid,
      getSym_updateSym_ne _ _ _ _ (by omega : st.syms.length ≠ stackTop st),
      getSym_addvar_top st (stackTop st) p.1 range hw]
    rfl

/-- Exact effect of the wildcard binding loop: it creates one Variable per
selected entry, in order, at the fresh indices; each carries the wildcard
range, the import-variable mark and weak copies of the target bindings;
no other symbol is touched. -/
theorem wildcard_bind_spec (range : TextRange) (allowed : Bool)
    (nf : List String) :
    ∀ (sel : List (String × List Nat)) (st : BState),
    stackTop st < st.syms.length →
    ((wildcard_bind st range allowed nf sel).1.syms.length
        = st.syms.length
          + (sel.filter (fun p => allowed || nf.contains p.1)).length) ∧
    ((wildcard_bind st range allowed nf sel).2
        = List.range' st.syms.length
            (sel.filter (fun p => allowed || nf.contains p.1)).length) ∧
    ((wildcard_bind st range allowed nf sel).1.sym_stack = st.sym_stack) ∧
    (∀ m, m ≠ stackTop st → m < st.syms.length →
      getSym (wildcard_bind st range allowed nf sel).1 m = getSym st m) ∧
    (∀ i, i < (sel.filter (fun p => allowed || nf.contains p.1)).length →
      getSym (wildcard_bind st range allowed nf sel).1 (st.syms.length + i)
        = wildcardVar (stackTop st)
            ((getSym st (stackTop st)).is_external)
            ((sel.filter (fun p => allowed || nf.contains p.1)).getD i
              default).1
            range
            ((sel.filter (fun p => allowed || nf.contains p.1)).getD i
              default).2) := by
  intro sel
  induction sel with
  | nil =>
    intro st hw
    rw [wildcard_bind]
    refine ⟨by simp, by simp, rfl, fun m _ _ => rfl, fun i hi => ?_⟩
    simp at hi
  | cons p rest ih =>
    intro st hw
    rw [wildcard_bind_cons]
    by_cases hk : (allowed || nf.contains p.1) = true
    · rw [if_pos hk]
      obtain ⟨hf1, hf2, hf3, hf4, hf5⟩ := wb_state_facts st p range hw
      have hw2 : stackTop (wb_state st p range)
          < (wb_state st p range).syms.length := by
        rw [hf1, hf2]
        omega
      obtain ⟨ih1, ih2, ih3, ih4, ih5⟩ := ih (wb_state st p range) hw2
      have hfc : (p :: rest).filter (fun q => allowed || nf.contains q.1)
          = p :: rest.filter (fun q => allowed || nf.contains q.1) := by
        simp [List.filter_cons, hk]
        intro ha
        rw [ha] at hk
        simpa using hk
      rw [hfc]
      refine ⟨?_, ?_, ?_, ?_, ?_⟩
      · dsimp only
        rw [ih1, hf1, List.length_cons]
        omega
      · dsimp only
        rw [ih2, hf1, List.length_cons, List.range'_succ]
      · dsimp only
        rw [ih3]
        rfl
      · intro m hm1 hm2
        dsimp only
        rw [ih4 m (by rw [hf2]; exact hm1) (by rw [hf1]; omega),
          hf4 m hm1 hm2]
      · intro i hi
        cases i with
        | zero =>
          dsimp only
          rw [show st.syms.length + 0 = st.syms.length from rfl]
          rw [ih4 st.syms.length (by rw [hf2]; omega) (by rw [hf1]; omega),
            hf3]
          rfl
        | succ j =>
          have hj : j < (rest.filter
              (fun q => allowed || nf.contains q.1)).length := by
            rw [List.length_cons] at hi
            omega
          have hidx : st.syms.length + (j + 1)
              = (wb_state st p range).syms.length + j := by
            rw [hf1]
            omega
          dsimp only
          rw [hidx, ih5 j hj, hf2, hf5]
          rfl
    · rw [if_neg hk]
      have h0 : (allowed || nf.contains p.1) = false := by
        cases h : (allowed || nf.contains p.1) with
        | false => rfl
        | true => exact absurd h hk
      have hfc : (p :: rest).filter (fun q => allowed || nf.contains q.1)
          = rest.filter (fun q => allowed || nf.contains q.1) := by
        simp [List.filter_cons, h0]
        obtain ⟨ha, hb⟩ := Bool.or_eq_false_iff.mp h0
        refine ⟨ha, ?_⟩
        simpa using hb
      rw [hfc]
      exact ih st hw

theorem getSym_wildcard_deps (env : Env) (ids : List Nat) (st : BState)
    (i : Nat) :
    getSym (wildcard_deps env st ids) i = getSym st i := by
  rw [getSym_eq, getSym_eq, (wildcard_deps_fields env ids st).1]

theorem len_wildcard_deps (env : Env) (ids : List Nat) (st : BState) :
    (wildcard_deps env st ids).syms.length = st.syms.length := by
  rw [(wildcard_deps_fields env ids st).1]

/-- C2: a successful module-top-level wildcard import binds, when the target
module's `__all__` has a single evaluation extracting to the pure string
list L, exactly one import Variable per top-level name of the module that is
in L (in order, carrying the resolver range, the import-variable mark and
weak copies of the target bindings), touching no other symbol; and when the
module has no `__all__` binding, one such Variable for every top-level name
of the module. -/
theorem c2_wildcard_import :
    (∀ (env : Env) (fs : Option String) (aliases : List Alias)
        (lv : Option Nat) (rng arange : TextRange) (st : BState)
        (all : Nat) (v : EvaluationValue) (L : List String),
      st.sym_stack.length = 1 →
      stackTop st < st.syms.length →
      (env.resolve_import_stmt fs aliases lv rng).found = true →
      (get_content_symbol st
          (env.resolve_import_stmt fs aliases lv rng).symbol
          "__all__").head? = some all →
      (getSym st all).evaluations.length = 1 →
      ((getSym st all).evaluations.headD default).value = some v →
      extract_all_symbol_eval_values (some v) = (L, false) →
      (process_import_alias env fs aliases lv rng st
          ⟨"*", none, arange⟩).syms.length
        = st.syms.length
          + (((iter_symbols st
              (env.resolve_import_stmt fs aliases lv rng).symbol).filter
            (fun p => L.contains p.1)).length) ∧
      (∀ m, m ≠ stackTop st → m < st.syms.length →
        getSym (process_import_alias env fs aliases lv rng st
          ⟨"*", none, arange⟩) m = getSym st m) ∧
      (∀ i, i < ((iter_symbols st
          (env.resolve_import_stmt fs aliases lv rng).symbol).filter
            (fun p => L.contains p.1)).length →
        getSym (process_import_alias env fs aliases lv rng st
            ⟨"*", none, arange⟩) (st.syms.length + i)
          = wildcardVar (stackTop st)
              ((getSym st (stackTop st)).is_external)
              (((iter_symbols st
                (env.resolve_import_stmt fs aliases lv rng).symbol).filter
                  (fun p => L.contains p.1)).getD i default).1
              (env.resolve_import_stmt fs aliases lv rng).range
              (((iter_symbols st
                (env.resolve_import_stmt fs aliases lv rng).symbol).filter
                  (fun p => L.contains p.1)).getD i default).2)) ∧
    (∀ (env : Env) (fs : Option String) (aliases : List Alias)
        (lv : Option Nat) (rng arange : TextRange) (st : BState),
      st.sym_stack.length = 1 →
      stackTop st < st.syms.length →
      (env.resolve_import_stmt fs aliases lv rng).found = true →
      get_content_symbol st
          (env.resolve_import_stmt fs aliases lv rng).symbol "__all__" = [] →
      (process_import_alias env fs aliases lv rng st
          ⟨"*", none, arange⟩).syms.length
        = st.syms.length
          + (iter_symbols st
              (env.resolve_import_stmt fs aliases lv rng).symbol).length ∧
      (∀ m, m ≠ stackTop st → m < st.syms.length →
        getSym (process_import_alias env fs aliases lv rng st
          ⟨"*", none, arange⟩) m = getSym st m) ∧
      (∀ i, i < (iter_symbols st
          (env.resolve_import_stmt fs aliases lv rng).symbol).length →
        getSym (process_import_alias env fs aliases lv rng st
            ⟨"*", none, arange⟩) (st.syms.length + i)
          = wildcardVar (stackTop st)
              ((getSym st (stackTop st)).is_external)
              ((iter_symbols st
                (env.resolve_import_stmt fs aliases lv rng).symbol).getD i
                default).1
              (env.resolve_import_stmt fs aliases lv rng).range
              ((iter_symbols st
                (env.resolve_import_stmt fs aliases lv rng).symbol).getD i
                default).2)) := by
  constructor
  · intro env fs aliases lv rng arange st all v L hlen1 hw hfound hall h1 hv
      hex
    have hfl : wildcard_filter st
        (env.resolve_import_stmt fs aliases lv rng).symbol = (false, L) := by
      rw [wildcard_filter.eq_def, hall]
      dsimp only
      rw [if_pos h1, hv]
      dsimp only
      rw [hex]
    have hpred : (fun (p : String × List Nat) => false || L.contains p.1)
        = (fun p => L.contains p.1) := by
      funext q
      rw [Bool.false_or]
    rw [process_import_alias.eq_def]
    dsimp only
    rw [if_pos rfl]
    rw [if_neg (by rw [hlen1]; exact fun h => h rfl)]
    rw [if_neg (by rw [hfound]; exact fun h => nomatch h)]
    rw [hfl]
    dsimp only
    obtain ⟨hb1, hb2, hb3, hb4, hb5⟩ := wildcard_bind_spec
      (env.resolve_import_stmt fs aliases lv rng).range false L
      (iter_symbols st (env.resolve_import_stmt fs aliases lv rng).symbol)
      st hw
    rw [hpred] at hb1 hb5
    refine ⟨?_, ?_, ?_⟩
    · rw [len_wildcard_deps, hb1]
    · intro m hm1 hm2
      rw [getSym_wildcard_deps, hb4 m hm1 hm2]
    · intro i hi
      rw [getSym_wildcard_deps, hb5 i hi]
  · intro env fs aliases lv rng arange st hlen1 hw hfound hnall
    have hfl : wildcard_filter st
        (env.resolve_import_stmt fs aliases lv rng).symbol = (true, []) := by
      rw [wildcard_filter.eq_def, hnall]
      rfl
    have hpred : (fun (p : String × List Nat)
          => true || List.contains [] p.1) = (fun _ => true) := by
      funext q
      rw [Bool.true_or]
    rw [process_import_alias.eq_def]
    dsimp only
    rw [if_pos rfl]
    rw [if_neg (by rw [hlen1]; exact fun h => h rfl)]
    rw [if_neg (by rw [hfound]; exact fun h => nomatch h)]
    rw [hfl]
    dsimp only
    obtain ⟨hb1, hb2, hb3, hb4, hb5⟩ := wildcard_bind_spec
      (env.resolve_import_stmt fs aliases lv rng).range true []
      (iter_symbols st (env.resolve_import_stmt fs aliases lv rng).symbol)
      st hw
    rw [hpred, List.filter_true] at hb1 hb5
    refine ⟨?_, ?_, ?_⟩
    · rw [len_wildcard_deps, hb1]
    · intro m hm1 hm2
      rw [getSym_wildcard_deps, hb4 m hm1 hm2]
    · intro i hi
      rw [getSym_wildcard_deps, hb5 i hi]

/-- An environment whose resolver succeeds, pointing at symbol 1. -/
def envD : Env where
  resolve_import_stmt := fun _ _ _ _ =>
    { found := true, symbol := 1, file_tree := ([], []), range := {} }
  eval_from_ast := fun _ _ _ => ([], [])
  file_of := fun _ => none
  is_in_workspace := fun _ => false
  update_file_info := fun _ => { ast := none }
  init_path := fun p => p

/-- A fixture: an importing module plus a target module with an `__all__`
restricted to "a" and two top-level names "a" and "b". -/
def stWild : BState where
  syms :=
    [{ typ := .FILE, name := "mod", paths := ["m.py"] },
     { typ := .FILE, name := "m2", children := [2, 3, 4] },
     { typ := .VARIABLE, name := "__all__", parent := some 1,
       evaluations := [{ value := some (.LIST [.stringLiteral "a"]) }] },
     { typ := .VARIABLE, name := "a", parent := some 1 },
     { typ := .VARIABLE, name := "b", parent := some 1 }]
  sym_stack := [0]

theorem c2_wildcard_import_witness :
    (process_import_alias envD none [⟨"*", none, {}⟩] none {} stWild
        ⟨"*", none, {}⟩).syms.length = 6 ∧
    getSym (process_import_alias envD none [⟨"*", none, {}⟩] none {} stWild
        ⟨"*", none, {}⟩) 5
      = wildcardVar 0 false "a" {} [3] := by
  have h := c2_wildcard_import.1 envD none [⟨"*", none, {}⟩] none {} {}
    stWild 2 (.LIST [.stringLiteral "a"]) ["a"] rfl (by decide) rfl rfl rfl
    rfl rfl
  refine ⟨h.1.trans rfl, ?_⟩
  have h2 := h.2.2 0 (by decide)
  exact h2.trans rfl
